import Mathlib

/-!
# Syscall dispatch core of the Windows emulator

A shallow embedding of `src/windows-emulator/syscall_utils.hpp`:
the argument marshaler (`get_syscall_argument`, `resolve_argument`,
`resolve_indexed_argument`), the completion protocol
(`write_syscall_status`, `forward_syscall`) and the export scanner
(`is_syscall`, `extract_syscall_id`, `find_syscalls`).

Machine integers are natural numbers reduced modulo `2 ^ 64` where the
C++ arithmetic is done in `uint64_t` / `size_t`.  A `std::string` is a
list of characters, a `std::span<const std::byte>` a list of bytes, and
a `std::map` an association list kept in strictly ascending key order.
A function that throws returns `Except` with the text of the exception.
-/

namespace Emulator

/-! ## The CPU emulation engine (external collaborator) -/

/-- The number of values of a `uint64_t` (and of `size_t` on the x64 host). -/
def UINT64_SIZE : Nat := 2 ^ 64

/-- Modelled from the spec: the symbolic register names of the CPU engine
("register read/write by symbolic name"); the enumeration is declared outside
these sources.  Only the general purpose registers and `rip` are listed. -/
inductive x64_register
  | rax | rbx | rcx | rdx | rsi | rdi | rbp | rsp
  | r8 | r9 | r10 | r11 | r12 | r13 | r14 | r15
  | rip
  deriving DecidableEq, Repr

/-- Modelled from the spec: the state of the CPU engine as far as this core
consumes it: the register file, the guest memory (one byte per address) and,
as a ghost field, the list of register writes performed so far, oldest first,
so that "register `r` is not written" can be told from "register `r` is
written with the value it already had". -/
structure x64_emulator where
  regs : x64_register → Nat
  memory : Nat → Nat
  reg_writes : List (x64_register × Nat)

namespace x64_emulator

/-- Modelled from the spec: `emu.reg(r)`, the register read; the result is a
`uint64_t`. -/
def reg (emu : x64_emulator) (r : x64_register) : Nat :=
  emu.regs r % UINT64_SIZE

/-- Modelled from the spec: `emu.reg(r, value)`, the register write.  The
value is stored as a `uint64_t` and the write is appended to the ghost log. -/
def reg_write (emu : x64_emulator) (r : x64_register) (value : Nat) : x64_emulator :=
  { emu with
    regs := fun q => if q = r then value % UINT64_SIZE else emu.regs q
    reg_writes := emu.reg_writes ++ [(r, value % UINT64_SIZE)] }

/-- Modelled from the spec: `emu.read_instruction_pointer()`, the read of
`rip`. -/
def read_instruction_pointer (emu : x64_emulator) : Nat :=
  emu.reg x64_register.rip

/-- Modelled from the spec: the byte of guest memory at a 64-bit address. -/
def read_byte (emu : x64_emulator) (address : Nat) : Nat :=
  emu.memory (address % UINT64_SIZE) % 256

/-- Modelled from the spec: a little-endian 64-bit word of guest memory. -/
def read_u64 (emu : x64_emulator) (address : Nat) : Nat :=
  ((List.range 8).map (fun k => emu.read_byte (address + k) * 256 ^ k)).sum

/-- Modelled from the spec: `emu.read_stack(index)`, the "guest stack read by
word-index": the machine word `index` words past the current stack pointer,
the address being computed in `uint64_t`. -/
def read_stack (emu : x64_emulator) (index : Nat) : Nat :=
  emu.read_u64 ((emu.reg x64_register.rsp + index * 8) % UINT64_SIZE)

end x64_emulator

/-! ## Dispatch context -/

/-- Modelled from the spec: `NTSTATUS`, "the status code"; the type is declared
outside these sources.  A status is carried as a natural number and
`static_cast<uint64_t>(status)` is its reduction to 64 bits. -/
abbrev NTSTATUS := Nat

/-- The cast `static_cast<uint64_t>(status)` of `write_syscall_status`. -/
def status_to_uint64 (status : NTSTATUS) : Nat :=
  status % UINT64_SIZE

/-- The `syscall_context` of the source.  The references `win_emu` and `proc`
are not read or written by any function embedded here and are left out; `emu`
is a reference, so the context carries the engine state it refers to. -/
structure syscall_context where
  emu : x64_emulator
  write_status : Bool := true
  retrigger_syscall : Bool := false

/-! ## Argument marshaler -/

/-- The function `get_syscall_argument`.  `index` is a `size_t`, so `index + 1`
is reduced modulo `2 ^ 64`.  The engine is taken by reference: the state after
the call is returned next to the value. -/
def get_syscall_argument (emu : x64_emulator) (index : Nat) : Nat × x64_emulator :=
  match index with
  | 0 => (emu.reg x64_register.r10, emu)
  | 1 => (emu.reg x64_register.rdx, emu)
  | 2 => (emu.reg x64_register.r8, emu)
  | 3 => (emu.reg x64_register.r9, emu)
  | _ => (emu.read_stack ((index + 1) % UINT64_SIZE), emu)

/-- A guest memory read: its start address and its number of bytes. -/
abbrev memory_read := Nat × Nat

/-- Modelled from the spec: the guest memory `emu.read_stack(index)` reads, the
one machine word `index` words past the stack pointer. -/
def x64_emulator.read_stack_reads (emu : x64_emulator) (index : Nat) : List memory_read :=
  [((emu.reg x64_register.rsp + index * 8) % UINT64_SIZE, 8)]

/-- The guest memory reads of `get_syscall_argument`, case by case: the four
register reads touch no guest memory, the default case reads what
`emu.read_stack(index + 1)` reads. -/
def get_syscall_argument_reads (emu : x64_emulator) (index : Nat) : List memory_read :=
  match index with
  | 0 => []
  | 1 => []
  | 2 => []
  | 3 => []
  | _ => emu.read_stack_reads ((index + 1) % UINT64_SIZE)

/-- The declared type `T` of a handler parameter, as far as the three
`resolve_argument` templates tell types apart.  `integral bits is_signed` is an
integer type of that width and signedness, or an enumeration with that
underlying type; `boolean` is `bool`, which satisfies `std::is_integral_v`
too; `handle` is the handle type; `emulator_object` is any
`emulator_object<V>`. -/
inductive argument_type
  | integral (bits : Nat) (is_signed : Bool)
  | boolean
  | handle
  | emulator_object
  deriving DecidableEq, Repr

/-- A marshaled parameter value. -/
inductive argument
  | integral (value : Int)
  | boolean (value : Bool)
  | handle (bits : Nat)
  | emulator_object (address : Nat)
  deriving DecidableEq, Repr

/-- The conversion `static_cast<T>(arg)` of a `uint64_t` to an integer type of
width `bits`: the value of `T` congruent to `arg` modulo `2 ^ bits`. -/
def static_cast_integral (bits : Nat) (is_signed : Bool) (arg : Nat) : Int :=
  if is_signed && decide (2 ^ (bits - 1) ≤ arg % 2 ^ bits) then
    (arg % 2 ^ bits : Nat) - (2 ^ bits : Nat)
  else
    (arg % 2 ^ bits : Nat)

/-- What resolving one argument yields: the value, the engine after the call
and, as ghost output, the guest memory reads the call performed, oldest first. -/
structure resolved_argument where
  value : argument
  emu : x64_emulator
  memory_reads : List memory_read

/-- The three `resolve_argument` templates, selected by the declared type.
Each calls `get_syscall_argument` once, which accounts for all its guest
memory reads.  The integral one is `static_cast<T>(arg)`; for `bool` that
conversion is `arg != 0`.  The handle one stores `resolve_argument<uint64_t>`
in `bits`.  The object one is `T(emu, arg)`, which binds the engine and the
address and reads nothing at that address. -/
def resolve_argument (emu : x64_emulator) (T : argument_type) (index : Nat) :
    resolved_argument :=
  let r := get_syscall_argument emu index
  let reads := get_syscall_argument_reads emu index
  match T with
  | argument_type.integral bits is_signed =>
      { value := argument.integral (static_cast_integral bits is_signed r.1)
        emu := r.2, memory_reads := reads }
  | argument_type.boolean =>
      { value := argument.boolean (decide (r.1 ≠ 0)), emu := r.2, memory_reads := reads }
  | argument_type.handle =>
      { value := argument.handle (static_cast_integral 64 false r.1).toNat
        emu := r.2, memory_reads := reads }
  | argument_type.emulator_object =>
      { value := argument.emulator_object r.1, emu := r.2, memory_reads := reads }

/-- The result of marshaling: the value, the advanced index, the engine and,
as ghost output, the guest memory reads performed, oldest first. -/
structure resolved (α : Type) where
  value : α
  index : Nat
  emu : x64_emulator
  memory_reads : List memory_read

/-- The function `resolve_indexed_argument`: `resolve_argument<T>(emu, index++)`. -/
def resolve_indexed_argument (emu : x64_emulator) (T : argument_type) (index : Nat) :
    resolved argument :=
  let r := resolve_argument emu T index
  { value := r.value, index := (index + 1) % UINT64_SIZE, emu := r.emu
    memory_reads := r.memory_reads }

/-- The pack expansion `resolve_indexed_argument<Args>(c.emu, index)...` inside
the braced initialiser of `forward_syscall`: the elements are evaluated left
to right, each one receiving the index left by the previous one. -/
def resolve_indexed_arguments (emu : x64_emulator) :
    List argument_type → Nat → resolved (List argument)
  | [], index => { value := [], index := index, emu := emu, memory_reads := [] }
  | T :: Args, index =>
      let first := resolve_indexed_argument emu T index
      let rest := resolve_indexed_arguments first.emu Args first.index
      { value := first.value :: rest.value, index := rest.index, emu := rest.emu
        memory_reads := first.memory_reads ++ rest.memory_reads }

/-! ## Dispatch and completion -/

/-- The function `write_syscall_status`.  The flags of the context are only
read; the engine behind `c.emu` is written. -/
def write_syscall_status (c : syscall_context) (status : NTSTATUS) (initial_ip : Nat) :
    syscall_context :=
  let emu1 :=
    if c.write_status && !c.retrigger_syscall then
      c.emu.reg_write x64_register.rax (status_to_uint64 status)
    else c.emu
  let new_ip := emu1.read_instruction_pointer
  let emu2 :=
    if initial_ip ≠ new_ip ∨ c.retrigger_syscall = true then
      emu1.reg_write x64_register.rip ((new_ip + UINT64_SIZE - 2) % UINT64_SIZE)
    else emu1
  { c with emu := emu2 }

/-- A handler `NTSTATUS (*)(const syscall_context&, Args...)`: it receives the
context and the marshaled parameters, may write the engine and the two mutable
flags, and returns a status. -/
abbrev syscall_handler_function := syscall_context → List argument → NTSTATUS × syscall_context

/-- The overload `forward_syscall(c, NTSTATUS (*handler)())`: the handler
receives nothing, so within this model it only yields a status. -/
def forward_syscall_void (c : syscall_context) (handler : Unit → NTSTATUS) : syscall_context :=
  let ip := c.emu.read_instruction_pointer
  let ret := handler ()
  write_syscall_status c ret ip

/-- The first half of the overload
`forward_syscall(c, NTSTATUS (*handler)(const syscall_context&, Args...))`: the
parameters are marshaled with the index starting at 0 and the handler is
applied to the context and the tuple; the result is the returned status and
the context as the handler left it.  `Args` is the list of the declared
parameter types. -/
def apply_handler (c : syscall_context) (Args : List argument_type)
    (handler : syscall_handler_function) : NTSTATUS × syscall_context :=
  let func_args := resolve_indexed_arguments c.emu Args 0
  handler { c with emu := func_args.emu } func_args.value

/-- The overload `forward_syscall(c, NTSTATUS (*handler)(const syscall_context&, Args...))`:
the instruction pointer is recorded, the handler is applied (`apply_handler`)
and the call is completed. -/
def forward_syscall (c : syscall_context) (Args : List argument_type)
    (handler : syscall_handler_function) : syscall_context :=
  let ip := c.emu.read_instruction_pointer
  let called := apply_handler c Args handler
  write_syscall_status called.2 called.1 ip

/-- The register writes one completion step performs, oldest first, as read
off `write_syscall_status`. -/
def completion_writes (c : syscall_context) (status : NTSTATUS) (initial_ip : Nat) :
    List (x64_register × Nat) :=
  (if c.write_status = true ∧ c.retrigger_syscall = false then
      [(x64_register.rax, status_to_uint64 status)] else []) ++
  (if initial_ip ≠ c.emu.read_instruction_pointer ∨ c.retrigger_syscall = true then
      [(x64_register.rip, (c.emu.read_instruction_pointer + UINT64_SIZE - 2) % UINT64_SIZE)]
    else [])

/-! ## Concrete inputs -/

/-- An engine state at a syscall trap: `rip = 0x1000`, `rax = 7`, the argument
registers `r10 = 2`, `rdx = 0x11`, `r8 = 0x12`, `r9 = 0x13`, `rsp = 0x8000`,
and guest memory whose byte at address `a` is `a mod 256`. -/
def example_emu : x64_emulator :=
  { regs := fun r =>
      match r with
      | x64_register.rip => 0x1000
      | x64_register.rax => 7
      | x64_register.r10 => 2
      | x64_register.rdx => 0x11
      | x64_register.r8 => 0x12
      | x64_register.r9 => 0x13
      | x64_register.rsp => 0x8000
      | _ => 0
    memory := fun a => a % 256
    reg_writes := [] }

/-- A freshly constructed dispatch context over `example_emu`. -/
def example_context : syscall_context := { emu := example_emu }

/-- A handler that moves the instruction pointer to `0x2000`, requests a
retrigger and returns status 0. -/
def retrigger_moving_handler : syscall_handler_function :=
  fun c _ =>
    (0, { c with retrigger_syscall := true
                 emu := c.emu.reg_write x64_register.rip 0x2000 })

/-- A handler that returns the status `0xC0000022` and leaves the context, with
its two flags, as it is. -/
def access_denied_handler : syscall_handler_function :=
  fun c _ => (0xC0000022, c)

/-- Modelled from the spec: `exported_symbol`, "`{ name: string, rva:
unsigned-offset }`"; the structure is declared outside these sources.  The
offset is taken to be a `uint64_t`. -/
structure exported_symbol where
  name : List Char
  rva : Nat
  deriving DecidableEq, Repr

/-- A `std::byte`. -/
abbrev byte := Fin 256

/-- The `int` a `char` holding the byte `character` is promoted to when it is
passed to `toupper` and when it is compared with the result: plain `char` is
signed on the x86-64 hosts, so the bytes `0x80` to `0xFF` are negative. -/
def char_to_int (character : Char) : Int :=
  if character.toNat < 128 then (character.toNat : Int) else (character.toNat : Int) - 256

/-- The C library function `toupper` in the "C" locale, on the `int` it
receives: the letters `a` to `z` map to `A` to `Z`; a negative argument other
than `EOF` (-1), which is what a byte `0x80` to `0xFE` passed as a plain
`char` is, comes back as the unsigned value of the byte, as glibc does; every
other argument comes back as it is. -/
def toupper (c : Int) : Int :=
  if 97 ≤ c ∧ c ≤ 122 then c - 32
  else if -128 ≤ c ∧ c < -1 then c + 256
  else c

/-- The function `is_uppercase`: `toupper(character) == character`, both sides
being `int`. -/
def is_uppercase (character : Char) : Bool :=
  toupper (char_to_int character) == char_to_int character

/-- The function `is_syscall`.  `name[2]` is only evaluated when the name has
more than 3 characters. -/
def is_syscall (name : List Char) : Bool :=
  List.isPrefixOf ['N', 't'] name && decide (name.length > 3) &&
    is_uppercase (name.getD 2 'A')

/-- The constant `instruction_size` of `extract_syscall_id`. -/
def instruction_size : Nat := 5

/-- The constant `instruction_offset` of `extract_syscall_id`. -/
def instruction_offset : Nat := 3

/-- The constant `instruction_operand_offset` of `extract_syscall_id`. -/
def instruction_operand_offset : Nat := 1

/-- The constant `instruction_opcode` of `extract_syscall_id`. -/
def instruction_opcode : byte := 0xB8

/-- The element `data[i]` of the span.  A read past the end, which is undefined
in C++ and which `extract_syscall_id` can only reach when
`instruction_rva + instruction_size` wraps around, reads as 0 here. -/
def span_at (data : List byte) (i : Nat) : byte :=
  data.getD i 0

/-- The `memcpy` of four bytes at `data.data() + offset` into a `uint32_t` on
the little-endian host. -/
def memcpy_uint32 (data : List byte) (offset : Nat) : Nat :=
  (span_at data offset).val + (span_at data (offset + 1)).val * 256 +
    (span_at data (offset + 2)).val * 256 ^ 2 + (span_at data (offset + 3)).val * 256 ^ 3

/-- The function `extract_syscall_id`; the sums on `symbol.rva` are `uint64_t`
arithmetic. -/
def extract_syscall_id (symbol : exported_symbol) (data : List byte) : Option Nat :=
  if !is_syscall symbol.name then none
  else
    let instruction_rva := (symbol.rva + instruction_offset) % UINT64_SIZE
    if decide (data.length < (instruction_rva + instruction_size) % UINT64_SIZE) ||
        span_at data instruction_rva != instruction_opcode then none
    else some (memcpy_uint32 data (instruction_rva + instruction_operand_offset))

/-- A `std::map<uint64_t, V>`: the key/value pairs in iteration order, which is
ascending key order. -/
abbrev std_map (V : Type) := List (Nat × V)

namespace std_map

/-- The value stored under `key`, if there is one. -/
def find {V : Type} (m : std_map V) (key : Nat) : Option V :=
  match m with
  | [] => none
  | (k, v) :: rest => if k = key then some v else find rest key

/-- The map with `value` stored under `key`: the pair replaces the one with
that key, or is inserted at its place in ascending key order. -/
def assign {V : Type} (m : std_map V) (key : Nat) (value : V) : std_map V :=
  match m with
  | [] => [(key, value)]
  | (k, v) :: rest =>
      if key < k then (key, value) :: (k, v) :: rest
      else if key = k then (key, value) :: rest
      else (k, v) :: assign rest key value

/-- The subscript `m[key]`: the value under `key`, a default-constructed value
being inserted first when the key is absent; the map after the call is
returned next to the value. -/
def subscript {V : Type} [Inhabited V] (m : std_map V) (key : Nat) : V × std_map V :=
  match find m key with
  | some v => (v, m)
  | none => (default, assign m key default)

end std_map

/-- The function `std::to_string` on an unsigned integer: its decimal digits. -/
def to_string (n : Nat) : List Char :=
  Nat.toDigits 10 n

/-- The text of the exception `find_syscalls` throws. -/
def find_syscalls_error (id : Nat) (name entry : List Char) : List Char :=
  "Syscall with id ".toList ++ to_string id ++ ", which is mapping to ".toList ++ name ++
    ", was already mapped to ".toList ++ entry

/-- The loop of `find_syscalls` over the exports still to visit, `syscalls`
being the map built so far. -/
def find_syscalls_loop (data : List byte) :
    List exported_symbol → std_map (List Char) → Except (List Char) (std_map (List Char))
  | [], syscalls => Except.ok syscalls
  | symbol :: rest, syscalls =>
      match extract_syscall_id symbol data with
      | none => find_syscalls_loop data rest syscalls
      | some id =>
          let entry := std_map.subscript syscalls id
          if !entry.1.isEmpty then
            Except.error (find_syscalls_error id symbol.name entry.1)
          else
            find_syscalls_loop data rest (std_map.assign entry.2 id symbol.name)

/-- The function `find_syscalls`. -/
def find_syscalls (exports : List exported_symbol) (data : List byte) :
    Except (List Char) (std_map (List Char)) :=
  find_syscalls_loop data exports []

/-- A module image with two syscall stubs of the shape
`mov r10, rcx; mov eax, imm32`: one at offset 0 loading 15, one at offset 8
loading 2. -/
def example_image : List byte :=
  [0x4C, 0x8B, 0xD1, 0xB8, 0x0F, 0x00, 0x00, 0x00,
   0x4C, 0x8B, 0xD1, 0xB8, 0x02, 0x00, 0x00, 0x00]

/-- The export `NtClose` at offset 0. -/
def export_NtClose : exported_symbol := { name := "NtClose".toList, rva := 0 }

/-- The export `NtOpenFile` at offset 8. -/
def export_NtOpenFile : exported_symbol := { name := "NtOpenFile".toList, rva := 8 }

/-- The export `ZwClose`, an alias at offset 0 whose name is outside the
native-API convention. -/
def export_ZwClose : exported_symbol := { name := "ZwClose".toList, rva := 0 }

/-- The export `NtYieldExecution` at offset 0, the same stub as `NtClose`. -/
def export_NtYieldExecution : exported_symbol :=
  { name := "NtYieldExecution".toList, rva := 0 }

/-- Two exports do not yield the same syscall ID from the image. -/
def ids_distinct (data : List byte) (s t : exported_symbol) : Prop :=
  ∀ id, extract_syscall_id s data = some id → extract_syscall_id t data ≠ some id

/-- The keys of the map are enumerated in strictly ascending order. -/
def keys_ascending {V : Type} (m : std_map V) : Prop :=
  m.Pairwise (fun a b => a.1 < b.1)

/-- The state of the map `find_syscalls` builds: keys strictly ascending and
every stored name non-empty. -/
def scanned_map (m : std_map (List Char)) : Prop :=
  keys_ascending m ∧ ∀ p ∈ m, p.2 ≠ []

/-! ## Syscall table builder -/

/-- Modelled from the spec: `syscall_handler_entry`, "`{ name: string, handler:
optional function-reference }`"; the structure is declared outside these
sources.  A handler is a function pointer, carried as the number that
identifies the function; `none` is `nullptr`.  The defaults are those of a
default-constructed entry. -/
structure syscall_handler_entry where
  handler : Option Nat := none
  name : List Char := []
  deriving DecidableEq, Repr

/-- A default-constructed `syscall_handler_entry`, as `handlers[id]` inserts it. -/
instance : Inhabited syscall_handler_entry := ⟨{ handler := none, name := [] }⟩

/-- The text of the exception `map_syscalls` throws. -/
def map_syscalls_error (id : Nat) (name entry_name : List Char) : List Char :=
  "Syscall with id ".toList ++ to_string id ++ ", which is mapping to ".toList ++ name ++
    ", was previously mapped to ".toList ++ entry_name

/-- What a call of `map_syscalls` leaves behind: the table, which is taken by
reference and keeps what was merged before an exception, and the text of the
exception if one was thrown. -/
structure map_syscalls_outcome where
  handlers : std_map syscall_handler_entry
  thrown : Option (List Char)

/-- The loop of `map_syscalls` over the incoming pairs still to visit, in the
iteration order of the incoming map. -/
def map_syscalls_loop :
    std_map (List Char) → std_map syscall_handler_entry → map_syscalls_outcome
  | [], handlers => { handlers := handlers, thrown := none }
  | (id, name) :: rest, handlers =>
      let entry := std_map.subscript handlers id
      if !entry.1.name.isEmpty then
        { handlers := entry.2, thrown := some (map_syscalls_error id name entry.1.name) }
      else
        map_syscalls_loop rest
          (std_map.assign entry.2 id { handler := none, name := name })

/-- The function `map_syscalls`. -/
def map_syscalls (handlers : std_map syscall_handler_entry) (syscalls : std_map (List Char)) :
    map_syscalls_outcome :=
  map_syscalls_loop syscalls handlers

/-- The name `handlers[id]` presents: the stored one, or the empty name of a
default-constructed entry when the table has no entry for `id`. -/
def stored_name (handlers : std_map syscall_handler_entry) (id : Nat) : List Char :=
  match std_map.find handlers id with
  | some entry => entry.name
  | none => []

/-- A table with three entries: ID 2 registered as `NtOpenFile` with handler
number 77, ID 7 present with an empty name and handler number 5, ID 15
registered as `NtClose` without a handler. -/
def example_table : std_map syscall_handler_entry :=
  [(2, { handler := some 77, name := "NtOpenFile".toList }),
   (7, { handler := some 5, name := [] }),
   (15, { handler := none, name := "NtClose".toList })]

/-- An incoming mapping: ID 1 to `NtAccept`, ID 2 to `NtCreateFile`. -/
def example_incoming_conflict : std_map (List Char) :=
  [(1, "NtAccept".toList), (2, "NtCreateFile".toList)]

/-- An incoming mapping that meets no named entry of `example_table`: ID 1 to
`NtAccept`, ID 7 to `NtWrite`. -/
def example_incoming_free : std_map (List Char) :=
  [(1, "NtAccept".toList), (7, "NtWrite".toList)]

/-! ## Time conversion -/

/-- The value a signed 64-bit integer holds when the mathematical result of an
operation is `x`: the representative of `x` modulo `2 ^ 64` in
`[-2 ^ 63, 2 ^ 63)`.  It is `x` itself when `x` is representable. -/
def to_int64 (x : Int) : Int :=
  (x + 2 ^ 63) % 2 ^ 64 - 2 ^ 63

/-- The conversion `static_cast<int32_t>(x)`. -/
def to_int32 (x : Int) : Int :=
  (x + 2 ^ 31) % 2 ^ 32 - 2 ^ 31

/-- The conversion `static_cast<uint32_t>(x)`. -/
def to_uint32 (x : Int) : Nat :=
  (x % 2 ^ 32).toNat

/-- The bit pattern of a signed 64-bit integer, as an unsigned number. -/
def to_uint64 (x : Int) : Nat :=
  (x % 2 ^ 64).toNat

/-- The operator `|` on two signed 64-bit integers. -/
def int64_or (a b : Int) : Int :=
  to_int64 ((to_uint64 a ||| to_uint64 b : Nat) : Int)

/-- The constant `HUNDRED_NANOSECONDS_IN_ONE_SECOND`. -/
def HUNDRED_NANOSECONDS_IN_ONE_SECOND : Int := 10000000

/-- The constant `EPOCH_DIFFERENCE_1601_TO_1970_SECONDS`. -/
def EPOCH_DIFFERENCE_1601_TO_1970_SECONDS : Int := 11644473600

/-- The constant `WINDOWS_EPOCH_DIFFERENCE`, a `long long` product. -/
def WINDOWS_EPOCH_DIFFERENCE : Int :=
  to_int64 (EPOCH_DIFFERENCE_1601_TO_1970_SECONDS * HUNDRED_NANOSECONDS_IN_ONE_SECOND)

/-- The local `relative_duration` of `convert_delay_interval_to_time_point`, in
nanoseconds: `std::chrono::microseconds(relative_time / 10) +
std::chrono::nanoseconds((relative_time % 10) * 100)` with
`relative_time = -QuadPart`.  The sum of the two durations is taken in
nanoseconds, the microseconds being multiplied by 1000.  Durations count in
signed 64-bit integers; `/` and `%` truncate toward zero. -/
def relative_duration (QuadPart : Int) : Int :=
  let relative_time := to_int64 (-QuadPart)
  let relative_ticks_in_ms := Int.tdiv relative_time 10
  let relative_fraction_ns := to_int64 (Int.tmod relative_time 10 * 100)
  to_int64 (to_int64 (relative_ticks_in_ms * 1000) + relative_fraction_ns)

/-- The local `delay_seconds_since_1601` of `convert_delay_interval_to_time_point`. -/
def delay_seconds_since_1601 (QuadPart : Int) : Int :=
  Int.tdiv QuadPart HUNDRED_NANOSECONDS_IN_ONE_SECOND

/-- The local `delay_fraction_ns` of `convert_delay_interval_to_time_point`. -/
def delay_fraction_ns (QuadPart : Int) : Int :=
  to_int64 (Int.tmod QuadPart HUNDRED_NANOSECONDS_IN_ONE_SECOND * 100)

/-- The local `delay_seconds_since_1970` of `convert_delay_interval_to_time_point`. -/
def delay_seconds_since_1970 (QuadPart : Int) : Int :=
  to_int64 (delay_seconds_since_1601 QuadPart - EPOCH_DIFFERENCE_1601_TO_1970_SECONDS)

/-- The local `target_time` of `convert_delay_interval_to_time_point`, in
nanoseconds since the Unix epoch: `system_clock::from_time_t` multiplies the
seconds by `10 ^ 9`, the wall clock counting nanoseconds in a signed 64-bit
integer. -/
def target_time (QuadPart : Int) : Int :=
  to_int64 (to_int64 (delay_seconds_since_1970 QuadPart * 1000000000) +
    delay_fraction_ns QuadPart)

/-- The local `duration_until_target` of `convert_delay_interval_to_time_point`,
in microseconds: the `duration_cast` divides the nanoseconds by 1000,
truncating toward zero.  `now_system` is the reading of
`std::chrono::system_clock::now()`. -/
def duration_until_target (now_system : Int) (QuadPart : Int) : Int :=
  Int.tdiv (to_int64 (target_time QuadPart - now_system)) 1000

/-- The function `convert_delay_interval_to_time_point` on
`delay_interval.QuadPart`.  The two clock readings the call takes are
parameters: `now_system` for `system_clock::now()` and `now_steady` for
`steady_clock::now()`, both in nanoseconds; the result is a `steady_clock`
time point in nanoseconds. -/
def convert_delay_interval_to_time_point (now_system now_steady : Int) (QuadPart : Int) : Int :=
  if QuadPart ≤ 0 then
    to_int64 (now_steady + relative_duration QuadPart)
  else
    to_int64 (now_steady + to_int64 (duration_until_target now_system QuadPart * 1000))

/-- Modelled from the spec: `KSYSTEM_TIME`, the "split (low 32 bits, high 32
bits replicated into two fields)" encoding; the structure is declared outside
these sources.  `LowPart` is unsigned, the two high fields are signed. -/
structure KSYSTEM_TIME where
  LowPart : Nat
  High1Time : Int
  High2Time : Int
  deriving DecidableEq, Repr

/-- The local `total_ticks` of `convert_to_ksystem_time`; `tp` is the wall-clock
instant in nanoseconds since the Unix epoch. -/
def total_ticks (tp : Int) : Int :=
  to_int64 (Int.tdiv tp 100 + WINDOWS_EPOCH_DIFFERENCE)

/-- The function `convert_to_ksystem_time(tp)`; `>>` on a signed integer is the
arithmetic shift. -/
def convert_to_ksystem_time (tp : Int) : KSYSTEM_TIME :=
  { LowPart := to_uint32 (total_ticks tp)
    High1Time := to_int32 (total_ticks tp >>> (32 : Nat))
    High2Time := to_int32 (total_ticks tp >>> (32 : Nat)) }

/-- The function `convert_from_ksystem_time(time)`: the wall-clock instant in
nanoseconds since the Unix epoch. -/
def convert_from_ksystem_time (time : KSYSTEM_TIME) : Int :=
  let totalTicks := int64_or (to_int64 (time.High1Time * 2 ^ 32)) (time.LowPart : Int)
  let totalTicks := to_int64 (totalTicks - WINDOWS_EPOCH_DIFFERENCE)
  to_int64 (totalTicks * 100)

/-- The function `convert_unix_to_windows_time`: the `QuadPart` of the result. -/
def convert_unix_to_windows_time (unix_time : Int) : Int :=
  to_int64 (to_int64 (unix_time + EPOCH_DIFFERENCE_1601_TO_1970_SECONDS) *
    HUNDRED_NANOSECONDS_IN_ONE_SECOND)

/-! ## Attribute write helper -/

/-- Modelled from the spec: the memory interface `emulator` of the engine ("raw
guest-memory read/write"), declared outside these sources: the guest memory,
one byte per 64-bit address, and, as a ghost field, the list of memory writes
performed so far, oldest first, each with its start address and bytes. -/
structure emulator where
  memory : Nat → byte
  memory_writes : List (Nat × List byte)

/-- Modelled from the spec: `emu.write_memory(address, data, size)`: byte `k` of
the data goes to address `address + k`, addresses being 64-bit. -/
def emulator.write_memory (emu : emulator) (address : Nat) (data : List byte) : emulator :=
  { memory := fun a =>
      (data[(a + UINT64_SIZE - address % UINT64_SIZE) % UINT64_SIZE]?).getD (emu.memory a)
    memory_writes := emu.memory_writes ++ [(address, data)] }

/-- Modelled from the spec: `emulator_object<T>{emu, address}.write(value)`,
the write of the object representation of `value` at the guest address. -/
def emulator_object_write (emu : emulator) (address : Nat) (value : List byte) : emulator :=
  emu.write_memory address value

/-- The object representation of the unsigned integer `n` in a type of `width`
bytes on the little-endian host. -/
def to_bytes (width : Nat) (n : Nat) : List byte :=
  (List.range width).map (fun k => Fin.ofNat (n / 256 ^ k))

/-- Modelled from the spec: `PS_ATTRIBUTE<Traits>`, the "AttributeSlot": "a
guest-side `{ size, value-address, optional return-length-address }`
descriptor"; the structure is declared outside these sources. -/
structure PS_ATTRIBUTE where
  Attribute : Nat
  Size : Nat
  Value : Nat
  ReturnLength : Nat
  deriving DecidableEq, Repr

/-- The function `write_attribute`.  `value` is the object representation of
the `T` to write, so `sizeof(T)` is its length; `attr` is the parameter
`attribute` of the source; `SIZE_T_bytes` is the size of
`Traits::SIZE_T`. -/
def write_attribute (emu : emulator) (SIZE_T_bytes : Nat) (attr : PS_ATTRIBUTE)
    (value : List byte) : emulator :=
  let emu1 :=
    if attr.ReturnLength ≠ 0 then
      emulator_object_write emu attr.ReturnLength (to_bytes SIZE_T_bytes value.length)
    else emu
  if attr.Size ≥ value.length then
    emulator_object_write emu1 attr.Value value
  else emu1

/-- A guest memory of zero bytes on which nothing has been written yet. -/
def example_memory : emulator :=
  { memory := fun _ => 0, memory_writes := [] }

/-- An attribute slot of capacity 4 whose return-length pointer is its value
address, `0x100`. -/
def example_aliased_attribute : PS_ATTRIBUTE :=
  { Attribute := 0, Size := 4, Value := 0x100, ReturnLength := 0x100 }

/-- The eight bytes of a value to write. -/
def example_value : List byte := [0xA1, 0xA2, 0xA3, 0xA4, 0xA5, 0xA6, 0xA7, 0xA8]

/-! # Theorems -/

/-! ## Engine lemmas -/

theorem x64_emulator.reg_reg_write (emu : x64_emulator) (r q : x64_register) (value : Nat) :
    (emu.reg_write r value).reg q = if q = r then value % UINT64_SIZE else emu.reg q := by
  unfold x64_emulator.reg x64_emulator.reg_write
  by_cases h : q = r <;> simp [h]

theorem x64_emulator.regs_reg_write_of_ne (emu : x64_emulator) (r q : x64_register)
    (value : Nat) (h : q ≠ r) : (emu.reg_write r value).regs q = emu.regs q := by
  simp [x64_emulator.reg_write, h]

theorem x64_emulator.memory_reg_write (emu : x64_emulator) (r : x64_register) (value : Nat) :
    (emu.reg_write r value).memory = emu.memory := rfl

theorem x64_emulator.reg_writes_reg_write (emu : x64_emulator) (r : x64_register)
    (value : Nat) :
    (emu.reg_write r value).reg_writes = emu.reg_writes ++ [(r, value % UINT64_SIZE)] := rfl

theorem status_to_uint64_mod (status : NTSTATUS) :
    status_to_uint64 status % UINT64_SIZE = status_to_uint64 status := by
  unfold status_to_uint64; exact Nat.mod_mod _ _

/-! ## Completion protocol lemmas -/

theorem write_syscall_status_flags (c : syscall_context) (status : NTSTATUS)
    (initial_ip : Nat) :
    (write_syscall_status c status initial_ip).write_status = c.write_status ∧
    (write_syscall_status c status initial_ip).retrigger_syscall = c.retrigger_syscall :=
  ⟨rfl, rfl⟩

theorem write_syscall_status_new_ip (c : syscall_context) (status : NTSTATUS) :
    (if c.write_status && !c.retrigger_syscall then
        c.emu.reg_write x64_register.rax (status_to_uint64 status)
      else c.emu).read_instruction_pointer = c.emu.read_instruction_pointer := by
  unfold x64_emulator.read_instruction_pointer
  split
  · rw [x64_emulator.reg_reg_write]; simp
  · rfl

theorem write_syscall_status_reg_writes (c : syscall_context) (status : NTSTATUS)
    (initial_ip : Nat) :
    (write_syscall_status c status initial_ip).emu.reg_writes =
      c.emu.reg_writes ++ completion_writes c status initial_ip := by
  unfold write_syscall_status completion_writes
  simp only [write_syscall_status_new_ip]
  cases hw : c.write_status <;> cases hr : c.retrigger_syscall <;>
    by_cases hip : initial_ip = c.emu.read_instruction_pointer <;>
    simp [hip, x64_emulator.reg_writes_reg_write, status_to_uint64_mod, Nat.mod_mod]

theorem write_syscall_status_rax_value (c : syscall_context) (status : NTSTATUS)
    (initial_ip : Nat) :
    (write_syscall_status c status initial_ip).emu.reg x64_register.rax =
      if c.write_status = true ∧ c.retrigger_syscall = false then status_to_uint64 status
      else c.emu.reg x64_register.rax := by
  unfold write_syscall_status
  simp only [write_syscall_status_new_ip]
  cases hw : c.write_status <;> cases hr : c.retrigger_syscall <;>
    by_cases hip : initial_ip = c.emu.read_instruction_pointer <;>
    simp [hip, x64_emulator.reg_reg_write, status_to_uint64_mod]

theorem write_syscall_status_rip_value (c : syscall_context) (status : NTSTATUS)
    (initial_ip : Nat) :
    (write_syscall_status c status initial_ip).emu.read_instruction_pointer =
      if initial_ip ≠ c.emu.read_instruction_pointer ∨ c.retrigger_syscall = true then
        (c.emu.read_instruction_pointer + UINT64_SIZE - 2) % UINT64_SIZE
      else c.emu.read_instruction_pointer := by
  unfold write_syscall_status
  simp only [write_syscall_status_new_ip]
  cases hw : c.write_status <;> cases hr : c.retrigger_syscall <;>
    by_cases hip : initial_ip = c.emu.reg x64_register.rip <;>
    simp [hip, x64_emulator.read_instruction_pointer, x64_emulator.reg_reg_write, Nat.mod_mod]

theorem write_syscall_status_other_regs (c : syscall_context) (status : NTSTATUS)
    (initial_ip : Nat) (r : x64_register) (hax : r ≠ x64_register.rax)
    (hip : r ≠ x64_register.rip) :
    (write_syscall_status c status initial_ip).emu.regs r = c.emu.regs r := by
  unfold write_syscall_status
  simp only [write_syscall_status_new_ip]
  cases hw : c.write_status <;> cases hr : c.retrigger_syscall <;>
    by_cases h : initial_ip = c.emu.read_instruction_pointer <;>
    simp [h, x64_emulator.reg_write, hax, hip]

theorem write_syscall_status_memory (c : syscall_context) (status : NTSTATUS)
    (initial_ip : Nat) :
    (write_syscall_status c status initial_ip).emu.memory = c.emu.memory := by
  unfold write_syscall_status
  simp only [write_syscall_status_new_ip]
  cases hw : c.write_status <;> cases hr : c.retrigger_syscall <;>
    by_cases h : initial_ip = c.emu.read_instruction_pointer <;>
    simp [h, x64_emulator.reg_write]

theorem forward_syscall_eq (c : syscall_context) (Args : List argument_type)
    (handler : syscall_handler_function) :
    forward_syscall c Args handler =
      write_syscall_status (apply_handler c Args handler).2 (apply_handler c Args handler).1
        c.emu.read_instruction_pointer := rfl

theorem mem_completion_writes_rax (c : syscall_context) (status : NTSTATUS)
    (initial_ip v : Nat) :
    (x64_register.rax, v) ∈ completion_writes c status initial_ip ↔
      (c.write_status = true ∧ c.retrigger_syscall = false) ∧ v = status_to_uint64 status := by
  unfold completion_writes
  by_cases h1 : c.write_status = true ∧ c.retrigger_syscall = false <;>
    by_cases h2 : initial_ip ≠ c.emu.read_instruction_pointer ∨ c.retrigger_syscall = true <;>
    simp [h1, h2]

theorem mem_completion_writes_rip (c : syscall_context) (status : NTSTATUS)
    (initial_ip v : Nat) :
    (x64_register.rip, v) ∈ completion_writes c status initial_ip ↔
      (initial_ip ≠ c.emu.read_instruction_pointer ∨ c.retrigger_syscall = true) ∧
        v = (c.emu.read_instruction_pointer + UINT64_SIZE - 2) % UINT64_SIZE := by
  unfold completion_writes
  by_cases h1 : c.write_status = true ∧ c.retrigger_syscall = false <;>
    by_cases h2 : initial_ip ≠ c.emu.read_instruction_pointer ∨ c.retrigger_syscall = true <;>
    simp [h1, h2]

theorem mem_completion_writes_register (c : syscall_context) (status : NTSTATUS)
    (initial_ip : Nat) (w : x64_register × Nat)
    (h : w ∈ completion_writes c status initial_ip) :
    w.1 = x64_register.rax ∨ w.1 = x64_register.rip := by
  unfold completion_writes at h
  rcases List.mem_append.1 h with h | h
  · split at h
    · left; simp at h; rw [h]
    · simp at h
  · split at h
    · right; simp at h; rw [h]
    · simp at h

/-! ## Claims on the completion protocol -/

theorem status_to_uint64_eq (status : NTSTATUS) : status_to_uint64 status = status % 2 ^ 64 :=
  rfl

theorem write_syscall_status_rax_regs (c : syscall_context) (status : NTSTATUS)
    (initial_ip : Nat) :
    (write_syscall_status c status initial_ip).emu.regs x64_register.rax =
      if c.write_status = true ∧ c.retrigger_syscall = false then status % 2 ^ 64
      else c.emu.regs x64_register.rax := by
  unfold write_syscall_status
  simp only [write_syscall_status_new_ip]
  cases hw : c.write_status <;> cases hr : c.retrigger_syscall <;>
    by_cases hip : initial_ip = c.emu.read_instruction_pointer <;>
    simp [hip, x64_emulator.reg_write, status_to_uint64, UINT64_SIZE]

/-- C1: `write_syscall_status` writes the status into `rax` if and only if
`write_status` is true and `retrigger_syscall` is false: the register writes it
performs contain a write of `rax` exactly in that case, the value written and
then held by `rax` is the status as a 64-bit unsigned value, which is the
status itself when that is below `2 ^ 64`, and in every other case `rax` keeps
the value it had when the handler returned.  In particular, when the handler
leaves `write_status` true and `retrigger_syscall` false, `rax` holds the
returned status after `forward_syscall`. -/
theorem write_syscall_status_writes_rax_iff (c : syscall_context) (status : NTSTATUS)
    (entry_ip : Nat) :
    (∃ written : List (x64_register × Nat),
      (write_syscall_status c status entry_ip).emu.reg_writes = c.emu.reg_writes ++ written ∧
      ((∃ v, (x64_register.rax, v) ∈ written) ↔
        (c.write_status = true ∧ c.retrigger_syscall = false)) ∧
      (∀ v, (x64_register.rax, v) ∈ written → v = status % 2 ^ 64) ∧
      ((c.write_status = true ∧ c.retrigger_syscall = false) →
        (x64_register.rax, status % 2 ^ 64) ∈ written)) ∧
    ((c.write_status = true ∧ c.retrigger_syscall = false) →
      (write_syscall_status c status entry_ip).emu.reg x64_register.rax = status % 2 ^ 64 ∧
      (write_syscall_status c status entry_ip).emu.regs x64_register.rax = status % 2 ^ 64 ∧
      (status < 2 ^ 64 →
        (write_syscall_status c status entry_ip).emu.reg x64_register.rax = status)) ∧
    (¬ (c.write_status = true ∧ c.retrigger_syscall = false) →
      (write_syscall_status c status entry_ip).emu.reg x64_register.rax =
        c.emu.reg x64_register.rax ∧
      (write_syscall_status c status entry_ip).emu.regs x64_register.rax =
        c.emu.regs x64_register.rax) ∧
    (∀ (c0 : syscall_context) (Args : List argument_type)
        (handler : syscall_handler_function),
      (apply_handler c0 Args handler).2.write_status = true →
      (apply_handler c0 Args handler).2.retrigger_syscall = false →
        (forward_syscall c0 Args handler).emu.reg x64_register.rax =
          (apply_handler c0 Args handler).1 % 2 ^ 64 ∧
        ((apply_handler c0 Args handler).1 < 2 ^ 64 →
          (forward_syscall c0 Args handler).emu.reg x64_register.rax =
            (apply_handler c0 Args handler).1)) := by
  refine ⟨⟨completion_writes c status entry_ip,
    write_syscall_status_reg_writes c status entry_ip, ?_, ?_, ?_⟩, ?_, ?_, ?_⟩
  · constructor
    · rintro ⟨v, hv⟩
      exact ((mem_completion_writes_rax c status entry_ip v).1 hv).1
    · intro h
      exact ⟨status_to_uint64 status, (mem_completion_writes_rax c status entry_ip _).2 ⟨h, rfl⟩⟩
  · intro v hv
    rw [← status_to_uint64_eq]
    exact ((mem_completion_writes_rax c status entry_ip v).1 hv).2
  · intro h
    rw [← status_to_uint64_eq]
    exact (mem_completion_writes_rax c status entry_ip _).2 ⟨h, rfl⟩
  · intro h
    have hreg : (write_syscall_status c status entry_ip).emu.reg x64_register.rax =
        status % 2 ^ 64 := by
      rw [write_syscall_status_rax_value, if_pos h, status_to_uint64_eq]
    refine ⟨hreg, ?_, ?_⟩
    · rw [write_syscall_status_rax_regs, if_pos h]
    · intro hlt
      rw [hreg, Nat.mod_eq_of_lt hlt]
  · intro h
    refine ⟨?_, ?_⟩
    · rw [write_syscall_status_rax_value, if_neg h]
    · rw [write_syscall_status_rax_regs, if_neg h]
  · intro c0 Args handler hw hr
    have hreg : (forward_syscall c0 Args handler).emu.reg x64_register.rax =
        (apply_handler c0 Args handler).1 % 2 ^ 64 := by
      rw [forward_syscall_eq, write_syscall_status_rax_value, if_pos ⟨hw, hr⟩,
        status_to_uint64_eq]
    refine ⟨hreg, ?_⟩
    intro hlt
    rw [hreg, Nat.mod_eq_of_lt hlt]

/-- Witness for C1: `access_denied_handler` on `example_context`, where `rax`
was 7, leaves both flags at their defaults and returns `0xC0000022`; after
`forward_syscall` the only register write is that of `rax` and `rax` holds
`0xC0000022`.  With `write_status` cleared the same completion leaves `rax`
at 7. -/
theorem write_syscall_status_writes_rax_iff_witness :
    example_context.emu.reg x64_register.rax = 7 ∧
    (forward_syscall example_context [] access_denied_handler).emu.reg x64_register.rax =
      0xC0000022 ∧
    (forward_syscall example_context [] access_denied_handler).emu.reg_writes =
      [(x64_register.rax, 0xC0000022)] ∧
    (write_syscall_status { example_context with write_status := false } 0xC0000022
      0x1000).emu.reg x64_register.rax = 7 :=
  have h := write_syscall_status_writes_rax_iff example_context 0xC0000022 0x1000
  have h2 := write_syscall_status_writes_rax_iff
    { example_context with write_status := false } 0xC0000022 0x1000
  ⟨by decide,
    (h.2.2.2 example_context [] access_denied_handler rfl rfl).2 (by decide),
    by decide,
    (h2.2.2.1 (by decide)).1.trans (by decide)⟩

/-- C2: for every dispatch, with `entry_ip` the instruction pointer recorded
before the handler ran and `post_ip` the one read after it returned: when
`post_ip` differs from `entry_ip` or the retrigger flag is set, the final
instruction pointer is `post_ip - 2` modulo `2 ^ 64`; otherwise `rip` is not
written and stays equal to `entry_ip`.  The completion step writes no register
other than `rax` and `rip`, and no guest memory.  The same holds for the
overload whose handler takes no parameters. -/
theorem forward_syscall_instruction_pointer (c : syscall_context)
    (Args : List argument_type) (handler : syscall_handler_function)
    (handler_void : Unit → NTSTATUS) :
    let entry_ip := c.emu.read_instruction_pointer
    let called := apply_handler c Args handler
    let post_ip := called.2.emu.read_instruction_pointer
    let done := forward_syscall c Args handler
    let done_void := forward_syscall_void c handler_void
    (∃ written : List (x64_register × Nat),
      done.emu.reg_writes = called.2.emu.reg_writes ++ written ∧
      (∀ w ∈ written, w.1 = x64_register.rax ∨ w.1 = x64_register.rip) ∧
      ((post_ip ≠ entry_ip ∨ called.2.retrigger_syscall = true) →
        done.emu.read_instruction_pointer = (post_ip + UINT64_SIZE - 2) % UINT64_SIZE) ∧
      ((post_ip = entry_ip ∧ called.2.retrigger_syscall = false) →
        done.emu.read_instruction_pointer = entry_ip ∧
          ∀ v, (x64_register.rip, v) ∉ written)) ∧
    (∀ r, r ≠ x64_register.rax → r ≠ x64_register.rip →
      done.emu.regs r = called.2.emu.regs r) ∧
    done.emu.memory = called.2.emu.memory ∧
    (∃ written : List (x64_register × Nat),
      done_void.emu.reg_writes = c.emu.reg_writes ++ written ∧
      (∀ w ∈ written, w.1 = x64_register.rax ∨ w.1 = x64_register.rip) ∧
      (c.retrigger_syscall = true →
        done_void.emu.read_instruction_pointer = (entry_ip + UINT64_SIZE - 2) % UINT64_SIZE) ∧
      (c.retrigger_syscall = false →
        done_void.emu.read_instruction_pointer = entry_ip ∧
          ∀ v, (x64_register.rip, v) ∉ written)) ∧
    (∀ r, r ≠ x64_register.rax → r ≠ x64_register.rip → done_void.emu.regs r = c.emu.regs r) ∧
    done_void.emu.memory = c.emu.memory := by
  intro entry_ip called post_ip done done_void
  have hdone : done = write_syscall_status called.2 called.1 entry_ip := rfl
  have hvoid : done_void = write_syscall_status c (handler_void ()) entry_ip := rfl
  refine ⟨⟨completion_writes called.2 called.1 entry_ip, ?_, ?_, ?_, ?_⟩, ?_, ?_,
    ⟨completion_writes c (handler_void ()) entry_ip, ?_, ?_, ?_, ?_⟩, ?_, ?_⟩
  · rw [hdone, write_syscall_status_reg_writes]
  · intro w hw
    exact mem_completion_writes_register _ _ _ w hw
  · intro h
    have h2 : entry_ip ≠ called.2.emu.read_instruction_pointer ∨
        called.2.retrigger_syscall = true := h.imp (fun h => fun e => h e.symm) id
    rw [hdone, write_syscall_status_rip_value, if_pos h2]
  · rintro ⟨h1, h2⟩
    have h3 : ¬ (entry_ip ≠ called.2.emu.read_instruction_pointer ∨
        called.2.retrigger_syscall = true) := by
      rintro (h | h)
      · exact h h1.symm
      · rw [h2] at h; cases h
    refine ⟨?_, ?_⟩
    · rw [hdone, write_syscall_status_rip_value, if_neg h3]; exact h1
    · intro v hv
      exact h3 ((mem_completion_writes_rip _ _ _ v).1 hv).1
  · intro r h1 h2
    rw [hdone]; exact write_syscall_status_other_regs _ _ _ r h1 h2
  · rw [hdone]; exact write_syscall_status_memory _ _ _
  · rw [hvoid, write_syscall_status_reg_writes]
  · intro w hw
    exact mem_completion_writes_register _ _ _ w hw
  · intro h
    rw [hvoid, write_syscall_status_rip_value, if_pos (Or.inr h)]
  · intro h
    have h3 : ¬ (entry_ip ≠ c.emu.read_instruction_pointer ∨ c.retrigger_syscall = true) := by
      rintro (h4 | h4)
      · exact h4 rfl
      · rw [h] at h4; cases h4
    refine ⟨?_, ?_⟩
    · rw [hvoid, write_syscall_status_rip_value, if_neg h3]
    · intro v hv
      exact h3 ((mem_completion_writes_rip _ _ _ v).1 hv).1
  · intro r h1 h2
    rw [hvoid]; exact write_syscall_status_other_regs _ _ _ r h1 h2
  · rw [hvoid]; exact write_syscall_status_memory _ _ _

/-- C3, the claim as stated fails: `retrigger_moving_handler` sets the retrigger
flag, the instruction pointer recorded at entry is `0x1000`, and after
completion the instruction pointer is `0x1ffe`, two below the value the handler
left, not `0x0ffe`, two below `entry_ip`. -/
theorem forward_syscall_retrigger_not_entry_ip :
    ¬ ∀ (c : syscall_context) (Args : List argument_type) (handler : syscall_handler_function),
        (apply_handler c Args handler).2.retrigger_syscall = true →
          (forward_syscall c Args handler).emu.reg x64_register.rax =
              (apply_handler c Args handler).2.emu.reg x64_register.rax ∧
            (forward_syscall c Args handler).emu.read_instruction_pointer =
              (c.emu.read_instruction_pointer + UINT64_SIZE - 2) % UINT64_SIZE := by
  intro h
  have h1 := (h example_context [] retrigger_moving_handler rfl).2
  have h2 : (forward_syscall example_context [] retrigger_moving_handler).emu.read_instruction_pointer
      = 0x1ffe := by decide
  have h3 : (example_context.emu.read_instruction_pointer + UINT64_SIZE - 2) % UINT64_SIZE
      = 0x0ffe := by decide
  rw [h2, h3] at h1
  exact absurd h1 (by decide)

/-- C3 as amended: when the handler sets the retrigger flag, the completion step
does not write `rax`, which keeps the value it had when the handler returned,
and the instruction pointer ends two below `post_ip`, the instruction pointer
read after the handler returned (modulo `2 ^ 64`); that is `entry_ip - 2` when
the handler left the instruction pointer at `entry_ip`. -/
theorem forward_syscall_retrigger (c : syscall_context) (Args : List argument_type)
    (handler : syscall_handler_function)
    (hretrigger : (apply_handler c Args handler).2.retrigger_syscall = true) :
    (forward_syscall c Args handler).emu.reg x64_register.rax =
        (apply_handler c Args handler).2.emu.reg x64_register.rax ∧
      (∃ written : List (x64_register × Nat),
        (forward_syscall c Args handler).emu.reg_writes =
            (apply_handler c Args handler).2.emu.reg_writes ++ written ∧
          ∀ v, (x64_register.rax, v) ∉ written) ∧
      (forward_syscall c Args handler).emu.read_instruction_pointer =
        ((apply_handler c Args handler).2.emu.read_instruction_pointer + UINT64_SIZE - 2)
          % UINT64_SIZE ∧
      ((apply_handler c Args handler).2.emu.read_instruction_pointer =
          c.emu.read_instruction_pointer →
        (forward_syscall c Args handler).emu.read_instruction_pointer =
          (c.emu.read_instruction_pointer + UINT64_SIZE - 2) % UINT64_SIZE) := by
  have hno : ¬ ((apply_handler c Args handler).2.write_status = true ∧
      (apply_handler c Args handler).2.retrigger_syscall = false) := by
    rintro ⟨_, h⟩
    rw [hretrigger] at h; cases h
  have hip : (forward_syscall c Args handler).emu.read_instruction_pointer =
      ((apply_handler c Args handler).2.emu.read_instruction_pointer + UINT64_SIZE - 2)
        % UINT64_SIZE := by
    rw [forward_syscall_eq, write_syscall_status_rip_value, if_pos (Or.inr hretrigger)]
  refine ⟨?_, ⟨completion_writes (apply_handler c Args handler).2 (apply_handler c Args handler).1
    c.emu.read_instruction_pointer, ?_, ?_⟩, hip, ?_⟩
  · rw [forward_syscall_eq, write_syscall_status_rax_value, if_neg hno]
  · rw [forward_syscall_eq, write_syscall_status_reg_writes]
  · intro v hv
    exact hno ((mem_completion_writes_rax _ _ _ v).1 hv).1
  · intro h
    rw [hip, h]

/-- Witness for C3 as amended: `retrigger_moving_handler` on `example_context`
sets the retrigger flag; `rax` keeps its value 7 and the instruction pointer
ends at `0x1ffe`. -/
theorem forward_syscall_retrigger_witness :
    (apply_handler example_context [] retrigger_moving_handler).2.retrigger_syscall = true ∧
    (forward_syscall example_context [] retrigger_moving_handler).emu.reg x64_register.rax = 7 ∧
    (forward_syscall example_context [] retrigger_moving_handler).emu.read_instruction_pointer
      = 0x1ffe :=
  have h := forward_syscall_retrigger example_context [] retrigger_moving_handler rfl
  ⟨rfl, h.1.trans (by decide), h.2.2.1.trans (by decide)⟩

/-! ## Claims on the argument marshaler -/

theorem x64_emulator.read_stack_mod (emu : x64_emulator) (index : Nat) :
    emu.read_stack (index % UINT64_SIZE) = emu.read_stack index := by
  unfold x64_emulator.read_stack
  congr 1
  unfold UINT64_SIZE
  omega

theorem get_syscall_argument_emu (emu : x64_emulator) (index : Nat) :
    (get_syscall_argument emu index).2 = emu := by
  unfold get_syscall_argument
  split <;> rfl

/-- C4: `get_syscall_argument(emu, i)` returns `r10` for `i = 0`, `rdx` for
`i = 1`, `r8` for `i = 2`, `r9` for `i = 3`, and for every `i >= 4` the guest
stack word at word-index `i + 1`; the engine state (registers, memory, write
log) after the call is the state before it. -/
theorem get_syscall_argument_registers_then_stack (emu : x64_emulator) :
    (get_syscall_argument emu 0).1 = emu.reg x64_register.r10 ∧
    (get_syscall_argument emu 1).1 = emu.reg x64_register.rdx ∧
    (get_syscall_argument emu 2).1 = emu.reg x64_register.r8 ∧
    (get_syscall_argument emu 3).1 = emu.reg x64_register.r9 ∧
    (∀ i, 4 ≤ i → (get_syscall_argument emu i).1 = emu.read_stack (i + 1)) ∧
    (∀ i, (get_syscall_argument emu i).2 = emu) := by
  refine ⟨rfl, rfl, rfl, rfl, ?_, get_syscall_argument_emu emu⟩
  intro i hi
  obtain ⟨k, rfl⟩ : ∃ k, i = k + 4 := ⟨i - 4, by omega⟩
  show emu.read_stack ((k + 4 + 1) % UINT64_SIZE) = emu.read_stack (k + 4 + 1)
  exact emu.read_stack_mod _

theorem std_map.find_mem {V : Type} (m : std_map V) (key : Nat) (v : V)
    (h : std_map.find m key = some v) : (key, v) ∈ m := by
  induction m with
  | nil => simp [std_map.find] at h
  | cons p rest ih =>
      obtain ⟨k, w⟩ := p
      unfold std_map.find at h
      by_cases hk : k = key
      · rw [if_pos hk] at h
        cases h
        rw [hk]; exact List.mem_cons_self _ _
      · rw [if_neg hk] at h
        exact List.mem_cons_of_mem _ (ih h)

theorem std_map.find_eq_none_iff {V : Type} (m : std_map V) (key : Nat) :
    std_map.find m key = none ↔ ∀ v, (key, v) ∉ m := by
  induction m with
  | nil => simp [std_map.find]
  | cons p rest ih =>
      obtain ⟨k, w⟩ := p
      unfold std_map.find
      by_cases hk : k = key
      · rw [if_pos hk]
        constructor
        · intro h; cases h
        · intro h
          exact absurd (List.mem_cons_self _ _) (hk ▸ h w)
      · rw [if_neg hk, ih]
        constructor
        · intro h v hv
          rcases List.mem_cons.1 hv with e | e
          · exact hk (Prod.mk.inj e).1.symm
          · exact h v e
        · intro h v hv
          exact h v (List.mem_cons_of_mem _ hv)

theorem std_map.assign_assign {V : Type} (m : std_map V) (key : Nat) (d v : V) :
    std_map.assign (std_map.assign m key d) key v = std_map.assign m key v := by
  induction m with
  | nil => simp [std_map.assign]
  | cons p rest ih =>
      obtain ⟨k, w⟩ := p
      by_cases h1 : key < k
      · simp [std_map.assign, h1]
      · by_cases h2 : key = k
        · subst h2
          simp [std_map.assign]
        · simp [std_map.assign, h1, h2, ih]

theorem std_map.mem_assign {V : Type} (m : std_map V) (key : Nat) (v : V)
    (h : std_map.find m key = none) (p : Nat × V) :
    p ∈ std_map.assign m key v ↔ p = (key, v) ∨ p ∈ m := by
  induction m with
  | nil => simp [std_map.assign]
  | cons q rest ih =>
      obtain ⟨k, w⟩ := q
      have hk : k ≠ key := by
        intro e
        simp [std_map.find, e] at h
      have hrest : std_map.find rest key = none := by
        simpa [std_map.find, hk] using h
      by_cases h1 : key < k
      · simp [std_map.assign, h1]
      · have h2 : key ≠ k := fun e => hk e.symm
        simp only [std_map.assign, h1, h2, if_false, List.mem_cons, ih hrest]
        tauto

theorem std_map.keys_ascending_assign {V : Type} (m : std_map V) (key : Nat) (v : V)
    (hs : keys_ascending m) (h : std_map.find m key = none) :
    keys_ascending (std_map.assign m key v) := by
  induction m with
  | nil => simp [std_map.assign, keys_ascending]
  | cons q rest ih =>
      obtain ⟨k, w⟩ := q
      have hk : k ≠ key := by
        intro e
        simp [std_map.find, e] at h
      have hrest : std_map.find rest key = none := by
        simpa [std_map.find, hk] using h
      unfold keys_ascending at hs ih ⊢
      rw [List.pairwise_cons] at hs
      by_cases h1 : key < k
      · simp only [std_map.assign, h1, if_true]
        refine List.pairwise_cons.2 ⟨?_, List.pairwise_cons.2 hs⟩
        intro b hb
        rcases List.mem_cons.1 hb with e | e
        · rw [e]; exact h1
        · exact lt_trans h1 (hs.1 b e)
      · have h2 : key ≠ k := fun e => hk e.symm
        simp only [std_map.assign, h1, h2, if_false]
        refine List.pairwise_cons.2 ⟨?_, ih hs.2 hrest⟩
        intro b hb
        rcases (std_map.mem_assign rest key v hrest b).1 hb with e | e
        · rw [e]; show k < key; omega
        · exact hs.1 b e

theorem keys_ascending_eq_of_mem_iff {V : Type} (m₁ m₂ : std_map V)
    (h₁ : keys_ascending m₁) (h₂ : keys_ascending m₂) (h : ∀ p, p ∈ m₁ ↔ p ∈ m₂) :
    m₁ = m₂ := by
  haveI : IsAntisymm (Nat × V) (fun a b => a.1 < b.1) :=
    ⟨fun a b hab hba => absurd hab (not_lt_of_gt hba)⟩
  have nodup : ∀ m : std_map V, keys_ascending m → m.Nodup := fun m hm =>
    List.Pairwise.imp (fun {a b} hab e => by rw [e] at hab; exact lt_irrefl _ hab) hm
  exact List.eq_of_perm_of_sorted ((List.perm_ext_iff_of_nodup (nodup m₁ h₁) (nodup m₂ h₂)).2 h)
    h₁ h₂

/-! ## Scanner lemmas -/

theorem is_syscall_length (name : List Char) (h : is_syscall name = true) :
    3 < name.length := by
  unfold is_syscall at h
  simp only [Bool.and_eq_true, decide_eq_true_eq] at h
  exact h.1.2

theorem extract_syscall_id_is_syscall (symbol : exported_symbol) (data : List byte) (id : Nat)
    (h : extract_syscall_id symbol data = some id) : is_syscall symbol.name = true := by
  unfold extract_syscall_id at h
  by_cases hs : is_syscall symbol.name = true
  · exact hs
  · simp [hs] at h

theorem extract_syscall_id_name_ne_nil (symbol : exported_symbol) (data : List byte) (id : Nat)
    (h : extract_syscall_id symbol data = some id) : symbol.name ≠ [] := by
  have := is_syscall_length _ (extract_syscall_id_is_syscall symbol data id h)
  intro e
  rw [e] at this
  exact absurd this (by decide)

theorem find_syscalls_loop_none (data : List byte) (symbol : exported_symbol)
    (rest : List exported_symbol) (m : std_map (List Char))
    (h : extract_syscall_id symbol data = none) :
    find_syscalls_loop data (symbol :: rest) m = find_syscalls_loop data rest m := by
  simp [find_syscalls_loop, h]

theorem find_syscalls_loop_present (data : List byte) (symbol : exported_symbol)
    (rest : List exported_symbol) (m : std_map (List Char)) (id : Nat) (entry : List Char)
    (h : extract_syscall_id symbol data = some id) (hf : std_map.find m id = some entry)
    (hne : entry ≠ []) :
    find_syscalls_loop data (symbol :: rest) m =
      Except.error (find_syscalls_error id symbol.name entry) := by
  have he : entry.isEmpty = false := by
    cases entry with
    | nil => exact absurd rfl hne
    | cons _ _ => rfl
  simp [find_syscalls_loop, h, std_map.subscript, hf, he]

theorem find_syscalls_loop_absent (data : List byte) (symbol : exported_symbol)
    (rest : List exported_symbol) (m : std_map (List Char)) (id : Nat)
    (h : extract_syscall_id symbol data = some id) (hf : std_map.find m id = none) :
    find_syscalls_loop data (symbol :: rest) m =
      find_syscalls_loop data rest (std_map.assign m id symbol.name) := by
  have hd : (default : List Char) = [] := rfl
  simp [find_syscalls_loop, h, std_map.subscript, hf, hd, std_map.assign_assign]

theorem scanned_map_find (m : std_map (List Char)) (hm : scanned_map m) (id : Nat)
    (entry : List Char) (hf : std_map.find m id = some entry) : entry ≠ [] :=
  hm.2 (id, entry) (std_map.find_mem m id entry hf)

theorem scanned_map_assign (m : std_map (List Char)) (hm : scanned_map m) (id : Nat)
    (name : List Char) (hname : name ≠ []) (hf : std_map.find m id = none) :
    scanned_map (std_map.assign m id name) := by
  refine ⟨std_map.keys_ascending_assign m id name hm.1 hf, ?_⟩
  intro p hp
  rcases (std_map.mem_assign m id name hf p).1 hp with e | e
  · rw [e]; exact hname
  · exact hm.2 p e

theorem scanned_map_nil : scanned_map [] :=
  ⟨List.Pairwise.nil, fun _ h => absurd h (List.not_mem_nil _)⟩

theorem ids_distinct_symm (data : List byte) {s t : exported_symbol}
    (h : ids_distinct data s t) : ids_distinct data t s :=
  fun id ht hs => h id hs ht

theorem find_syscalls_loop_ok_iff (data : List byte) :
    ∀ (exports : List exported_symbol) (m : std_map (List Char)), scanned_map m →
      ((∃ r, find_syscalls_loop data exports m = Except.ok r) ↔
        (exports.Pairwise (ids_distinct data) ∧
          ∀ s ∈ exports, ∀ id, extract_syscall_id s data = some id →
            std_map.find m id = none)) := by
  intro exports
  induction exports with
  | nil =>
      intro m _
      simp [find_syscalls_loop]
  | cons s rest ih =>
      intro m hm
      rw [List.pairwise_cons]
      cases hext : extract_syscall_id s data with
      | none =>
          rw [find_syscalls_loop_none data s rest m hext, ih m hm]
          constructor
          · rintro ⟨hp, hf⟩
            refine ⟨⟨?_, hp⟩, ?_⟩
            · intro t _ id hid
              rw [hext] at hid; cases hid
            · intro t ht id hid
              rcases List.mem_cons.1 ht with e | e
              · rw [e, hext] at hid; cases hid
              · exact hf t e id hid
          · rintro ⟨⟨_, hp⟩, hf⟩
            exact ⟨hp, fun t ht id hid => hf t (List.mem_cons_of_mem _ ht) id hid⟩
      | some id =>
          cases hfind : std_map.find m id with
          | some entry =>
              rw [find_syscalls_loop_present data s rest m id entry hext hfind
                (scanned_map_find m hm id entry hfind)]
              constructor
              · rintro ⟨r, hr⟩; cases hr
              · rintro ⟨_, hf⟩
                have := hf s (List.mem_cons_self _ _) id hext
                rw [hfind] at this; cases this
          | none =>
              have hname := extract_syscall_id_name_ne_nil s data id hext
              have hm2 := scanned_map_assign m hm id s.name hname hfind
              rw [find_syscalls_loop_absent data s rest m id hext hfind, ih _ hm2]
              constructor
              · rintro ⟨hp, hf⟩
                refine ⟨⟨?_, hp⟩, ?_⟩
                · intro t ht id2 hs2 ht2
                  rw [hext] at hs2
                  cases hs2
                  have h1 := hf t ht id ht2
                  rw [std_map.find_eq_none_iff] at h1
                  exact h1 s.name ((std_map.mem_assign m id s.name hfind _).2 (Or.inl rfl))
                · intro t ht id2 hid2
                  rcases List.mem_cons.1 ht with e | e
                  · rw [e, hext] at hid2
                    cases hid2
                    exact hfind
                  · have h1 := hf t e id2 hid2
                    rw [std_map.find_eq_none_iff] at h1 ⊢
                    intro v hv
                    exact h1 v ((std_map.mem_assign m id s.name hfind _).2 (Or.inr hv))
              · rintro ⟨⟨hd, hp⟩, hf⟩
                refine ⟨hp, ?_⟩
                intro t ht id2 hid2
                rw [std_map.find_eq_none_iff]
                intro v hv
                rcases (std_map.mem_assign m id s.name hfind _).1 hv with e | e
                · have e1 : id2 = id := (Prod.mk.inj e).1
                  rw [e1] at hid2
                  exact hd t ht id hext hid2
                · have h1 := hf t (List.mem_cons_of_mem _ ht) id2 hid2
                  rw [std_map.find_eq_none_iff] at h1
                  exact h1 v e

theorem find_syscalls_loop_ok (data : List byte) :
    ∀ (exports : List exported_symbol) (m r : std_map (List Char)), scanned_map m →
      find_syscalls_loop data exports m = Except.ok r →
      scanned_map r ∧
        ∀ p, p ∈ r ↔ (p ∈ m ∨ ∃ s ∈ exports, extract_syscall_id s data = some p.1 ∧
          s.name = p.2) := by
  intro exports
  induction exports with
  | nil =>
      intro m r hm h
      simp only [find_syscalls_loop, Except.ok.injEq] at h
      subst h
      exact ⟨hm, fun p => by simp⟩
  | cons s rest ih =>
      intro m r hm h
      cases hext : extract_syscall_id s data with
      | none =>
          rw [find_syscalls_loop_none data s rest m hext] at h
          obtain ⟨h1, h2⟩ := ih m r hm h
          refine ⟨h1, fun p => ?_⟩
          rw [h2 p]
          constructor
          · rintro (hp | ⟨t, ht, hp⟩)
            · exact Or.inl hp
            · exact Or.inr ⟨t, List.mem_cons_of_mem _ ht, hp⟩
          · rintro (hp | ⟨t, ht, hp⟩)
            · exact Or.inl hp
            · rcases List.mem_cons.1 ht with e | e
              · rw [e, hext] at hp; cases hp.1
              · exact Or.inr ⟨t, e, hp⟩
      | some id =>
          cases hfind : std_map.find m id with
          | some entry =>
              rw [find_syscalls_loop_present data s rest m id entry hext hfind
                (scanned_map_find m hm id entry hfind)] at h
              cases h
          | none =>
              have hname := extract_syscall_id_name_ne_nil s data id hext
              have hm2 := scanned_map_assign m hm id s.name hname hfind
              rw [find_syscalls_loop_absent data s rest m id hext hfind] at h
              obtain ⟨h1, h2⟩ := ih _ r hm2 h
              refine ⟨h1, fun p => ?_⟩
              rw [h2 p, std_map.mem_assign m id s.name hfind p]
              constructor
              · rintro ((hp | hp) | ⟨t, ht, hp⟩)
                · refine Or.inr ⟨s, List.mem_cons_self _ _, ?_⟩
                  rw [hp]; exact ⟨hext, rfl⟩
                · exact Or.inl hp
                · exact Or.inr ⟨t, List.mem_cons_of_mem _ ht, hp⟩
              · rintro (hp | ⟨t, ht, hp⟩)
                · exact Or.inl (Or.inr hp)
                · rcases List.mem_cons.1 ht with e | e
                  · rw [e, hext] at hp
                    refine Or.inl (Or.inl ?_)
                    obtain ⟨hp1, hp2⟩ := hp
                    cases hp1
                    exact Prod.ext rfl hp2.symm
                  · exact Or.inr ⟨t, e, hp⟩

theorem find_syscalls_ok_or_error (exports : List exported_symbol) (data : List byte) :
    (∃ r, find_syscalls exports data = Except.ok r) ∨
      (∃ msg, find_syscalls exports data = Except.error msg) := by
  cases h : find_syscalls exports data with
  | ok r => exact Or.inl ⟨r, rfl⟩
  | error msg => exact Or.inr ⟨msg, rfl⟩

theorem find_syscalls_ok_iff (exports : List exported_symbol) (data : List byte) :
    (∃ r, find_syscalls exports data = Except.ok r) ↔ exports.Pairwise (ids_distinct data) := by
  unfold find_syscalls
  rw [find_syscalls_loop_ok_iff data exports [] scanned_map_nil]
  constructor
  · exact fun h => h.1
  · exact fun h => ⟨h, fun _ _ _ _ => rfl⟩

theorem find_syscalls_error_iff (exports : List exported_symbol) (data : List byte) :
    (∃ msg, find_syscalls exports data = Except.error msg) ↔
      ¬ exports.Pairwise (ids_distinct data) := by
  rw [← find_syscalls_ok_iff]
  constructor
  · rintro ⟨msg, h⟩ ⟨r, hr⟩
    rw [h] at hr; cases hr
  · intro h
    rcases find_syscalls_ok_or_error exports data with h1 | h1
    · exact absurd h1 h
    · exact h1

theorem char_to_int_ascii (c : Char) (h : c.toNat < 128) :
    char_to_int c = (c.toNat : Int) := by
  unfold char_to_int
  rw [if_pos h]

theorem is_uppercase_lowercase (c : Char) (h1 : 'a' ≤ c) (h2 : c ≤ 'z') :
    is_uppercase c = false := by
  have b1 : 97 ≤ c.toNat := h1
  have b2 : c.toNat ≤ 122 := h2
  unfold is_uppercase
  rw [char_to_int_ascii c (by omega)]
  unfold toupper
  rw [if_pos ⟨by omega, by omega⟩]
  exact beq_eq_false_iff_ne.2 (by omega)

theorem is_uppercase_ascii_iff (c : Char) (h : c.toNat < 128) :
    is_uppercase c = true ↔ ¬ ('a' ≤ c ∧ c ≤ 'z') := by
  constructor
  · intro hu hc
    rw [is_uppercase_lowercase c hc.1 hc.2] at hu
    cases hu
  · intro hc
    have hn : ¬ (97 ≤ c.toNat ∧ c.toNat ≤ 122) := hc
    unfold is_uppercase
    rw [char_to_int_ascii c h]
    unfold toupper
    rw [if_neg (by omega), if_neg (by omega)]
    exact beq_self_eq_true _

theorem is_uppercase_high_byte (c : Char) (h1 : 128 ≤ c.toNat) (h2 : c.toNat < 255) :
    is_uppercase c = false := by
  unfold is_uppercase char_to_int
  rw [if_neg (by omega)]
  unfold toupper
  rw [if_neg (by omega), if_pos ⟨by omega, by omega⟩]
  exact beq_eq_false_iff_ne.2 (by omega)

theorem find_syscalls_loop_skip (data : List byte) (symbol : exported_symbol)
    (h : extract_syscall_id symbol data = none) :
    ∀ (pre post : List exported_symbol) (m : std_map (List Char)),
      find_syscalls_loop data (pre ++ symbol :: post) m =
        find_syscalls_loop data (pre ++ post) m := by
  intro pre
  induction pre with
  | nil =>
      intro post m
      exact find_syscalls_loop_none data symbol post m h
  | cons a pre ih =>
      intro post m
      simp only [List.cons_append, find_syscalls_loop]
      split
      · exact ih post m
      · split
        · rfl
        · exact ih post _

/-- C7: for a symbol accepted by `is_syscall` whose `rva + 8` does not overflow,
with `p = rva + 3`: `extract_syscall_id` returns an ID if and only if the image
has at least `p + 5` bytes and the byte at offset `p` is `0xB8`; the ID is then
the little-endian value of the four bytes at offsets `p + 1` to `p + 4`;
otherwise it returns no ID. -/
theorem extract_syscall_id_iff (symbol : exported_symbol) (data : List byte)
    (hs : is_syscall symbol.name = true) (hrva : symbol.rva + 8 < UINT64_SIZE) :
    ((∃ id, extract_syscall_id symbol data = some id) ↔
      (symbol.rva + 3 + 5 ≤ data.length ∧ data[symbol.rva + 3]? = some 0xB8)) ∧
    ((symbol.rva + 3 + 5 ≤ data.length ∧ data[symbol.rva + 3]? = some 0xB8) →
      ∃ b₁ b₂ b₃ b₄ : byte,
        data[symbol.rva + 3 + 1]? = some b₁ ∧ data[symbol.rva + 3 + 2]? = some b₂ ∧
        data[symbol.rva + 3 + 3]? = some b₃ ∧ data[symbol.rva + 3 + 4]? = some b₄ ∧
        extract_syscall_id symbol data =
          some (b₁.val + b₂.val * 256 + b₃.val * 256 ^ 2 + b₄.val * 256 ^ 3) ∧
        b₁.val + b₂.val * 256 + b₃.val * 256 ^ 2 + b₄.val * 256 ^ 3 < 2 ^ 32) ∧
    (¬ (symbol.rva + 3 + 5 ≤ data.length ∧ data[symbol.rva + 3]? = some 0xB8) →
      extract_syscall_id symbol data = none) := by
  have e1 : (symbol.rva + instruction_offset) % UINT64_SIZE = symbol.rva + 3 :=
    Nat.mod_eq_of_lt (by unfold instruction_offset; omega)
  have e2 : (symbol.rva + 3 + instruction_size) % UINT64_SIZE = symbol.rva + 3 + 5 :=
    Nat.mod_eq_of_lt (by unfold instruction_size; omega)
  have hyes : (symbol.rva + 3 + 5 ≤ data.length ∧ data[symbol.rva + 3]? = some 0xB8) →
      extract_syscall_id symbol data =
        some (memcpy_uint32 data (symbol.rva + 3 + instruction_operand_offset)) := by
    rintro ⟨hlen, hop⟩
    have hsp : span_at data (symbol.rva + 3) = instruction_opcode := by
      unfold span_at
      rw [List.getD_eq_getElem?_getD, hop]; rfl
    unfold extract_syscall_id
    simp only [hs, e1, e2, hsp]
    simp [Nat.not_lt.2 hlen]
  have hno : ¬ (symbol.rva + 3 + 5 ≤ data.length ∧ data[symbol.rva + 3]? = some 0xB8) →
      extract_syscall_id symbol data = none := by
    intro h
    unfold extract_syscall_id
    simp only [hs, e1, e2]
    by_cases hlen : symbol.rva + 3 + 5 ≤ data.length
    · have hop : ¬ data[symbol.rva + 3]? = some 0xB8 := fun e => h ⟨hlen, e⟩
      have hlt : symbol.rva + 3 < data.length := by omega
      have hsp : span_at data (symbol.rva + 3) ≠ instruction_opcode := by
        unfold span_at
        rw [List.getD_eq_getElem _ _ hlt]
        intro e
        apply hop
        rw [List.getElem?_eq_getElem hlt, e]; rfl
      simp [hsp]
    · simp [Nat.lt_of_not_le hlen]
  refine ⟨?_, ?_, hno⟩
  · constructor
    · rintro ⟨id, hid⟩
      by_contra hc
      rw [hno hc] at hid
      cases hid
    · intro h
      exact ⟨_, hyes h⟩
  · intro h
    have hlen := h.1
    have g : ∀ k, k < 5 → data[symbol.rva + 3 + k]? = some (span_at data (symbol.rva + 3 + k)) := by
      intro k hk
      have hlt : symbol.rva + 3 + k < data.length := by omega
      unfold span_at
      rw [List.getD_eq_getElem _ _ hlt, List.getElem?_eq_getElem hlt]
    refine ⟨span_at data (symbol.rva + 3 + 1), span_at data (symbol.rva + 3 + 2),
      span_at data (symbol.rva + 3 + 3), span_at data (symbol.rva + 3 + 4),
      g 1 (by decide), g 2 (by decide), g 3 (by decide), g 4 (by decide), ?_, ?_⟩
    · rw [hyes h]
      rfl
    · have h1 := (span_at data (symbol.rva + 3 + 1)).isLt
      have h2 := (span_at data (symbol.rva + 3 + 2)).isLt
      have h3 := (span_at data (symbol.rva + 3 + 3)).isLt
      have h4 := (span_at data (symbol.rva + 3 + 4)).isLt
      norm_num
      omega

/-- Witness for C7: `NtClose` at offset 0 of `example_image` is accepted by
`is_syscall`, the image has 16 bytes with `0xB8` at offset 3, and the ID is 15,
the little-endian value of the bytes `0F 00 00 00`. -/
theorem extract_syscall_id_iff_witness :
    is_syscall export_NtClose.name = true ∧ export_NtClose.rva + 8 < UINT64_SIZE ∧
    example_image[export_NtClose.rva + 3]? = some 0xB8 ∧
    extract_syscall_id export_NtClose example_image = some 15 :=
  have h := extract_syscall_id_iff export_NtClose example_image (by decide) (by decide)
  ⟨by decide, by decide, by decide, by
    obtain ⟨b₁, b₂, b₃, b₄, h1, h2, h3, h4, he, _⟩ := h.2.1 ⟨by decide, by decide⟩
    rw [he]
    cases (show b₁ = 0x0F from Option.some.inj (h1.symm.trans (by decide)))
    cases (show b₂ = 0 from Option.some.inj (h2.symm.trans (by decide)))
    cases (show b₃ = 0 from Option.some.inj (h3.symm.trans (by decide)))
    cases (show b₄ = 0 from Option.some.inj (h4.symm.trans (by decide)))
    rfl⟩

theorem is_syscall_eq_false (name : List Char)
    (h : ¬ (['N', 't'] <+: name) ∨ name.length ≤ 3 ∨
      ∃ c, name[2]? = some c ∧ 'a' ≤ c ∧ c ≤ 'z') :
    is_syscall name = false := by
  unfold is_syscall
  rcases h with h | h | ⟨c, hc, h1, h2⟩
  · have : List.isPrefixOf ['N', 't'] name = false := by
      rw [Bool.eq_false_iff]
      intro e
      exact h (List.isPrefixOf_iff_prefix.1 e)
    rw [this]; rfl
  · have : decide (name.length > 3) = false := decide_eq_false (by omega)
    rw [this, Bool.and_false]; rfl
  · have e : name.getD 2 'A' = c := by
      rw [List.getD_eq_getElem?_getD, hc]; rfl
    have : is_uppercase c = false := is_uppercase_lowercase c h1 h2
    rw [e, this, Bool.and_false]

/-- C8: a symbol whose name does not start with `Nt`, or has at most 3
characters, or has a lowercase letter as its third character yields no ID from
any image, and putting it anywhere in an export list changes nothing in what
`find_syscalls` returns or throws. -/
theorem extract_syscall_id_outside_convention (symbol : exported_symbol)
    (h : ¬ (['N', 't'] <+: symbol.name) ∨ symbol.name.length ≤ 3 ∨
      ∃ c, symbol.name[2]? = some c ∧ 'a' ≤ c ∧ c ≤ 'z') :
    (∀ data, extract_syscall_id symbol data = none) ∧
    (∀ pre post data,
      find_syscalls (pre ++ symbol :: post) data = find_syscalls (pre ++ post) data) := by
  have hnone : ∀ data, extract_syscall_id symbol data = none := by
    intro data
    unfold extract_syscall_id
    simp [is_syscall_eq_false symbol.name h]
  refine ⟨hnone, ?_⟩
  intro pre post data
  exact find_syscalls_loop_skip data symbol (hnone data) pre post []

/-- Witness for C8: `ZwClose` does not start with `Nt`; although it points at
the stub of `NtClose` it yields no ID, and the scan of the export list with it
equals the scan without it. -/
theorem extract_syscall_id_outside_convention_witness :
    ¬ (['N', 't'] <+: export_ZwClose.name) ∧
    extract_syscall_id export_ZwClose example_image = none ∧
    find_syscalls [export_NtClose, export_ZwClose, export_NtOpenFile] example_image =
      find_syscalls [export_NtClose, export_NtOpenFile] example_image :=
  have h := extract_syscall_id_outside_convention export_ZwClose (Or.inl (by decide))
  ⟨by decide, h.1 example_image, h.2 [export_NtClose] [export_NtOpenFile] example_image⟩

/-- C9: for every image and every two export lists that are permutations of
each other, `find_syscalls` throws on one if and only if it throws on the
other, and when it succeeds on both the two returned maps are equal. -/
theorem find_syscalls_perm (exports₁ exports₂ : List exported_symbol) (data : List byte)
    (h : exports₁.Perm exports₂) :
    ((∃ msg, find_syscalls exports₁ data = Except.error msg) ↔
      (∃ msg, find_syscalls exports₂ data = Except.error msg)) ∧
    (∀ r₁ r₂, find_syscalls exports₁ data = Except.ok r₁ →
      find_syscalls exports₂ data = Except.ok r₂ → r₁ = r₂) := by
  refine ⟨?_, ?_⟩
  · rw [find_syscalls_error_iff, find_syscalls_error_iff,
      List.Perm.pairwise_iff (fun {_ _} hst => ids_distinct_symm data hst) h]
  · intro r₁ r₂ h₁ h₂
    obtain ⟨hs₁, hm₁⟩ := find_syscalls_loop_ok data exports₁ [] r₁ scanned_map_nil h₁
    obtain ⟨hs₂, hm₂⟩ := find_syscalls_loop_ok data exports₂ [] r₂ scanned_map_nil h₂
    refine keys_ascending_eq_of_mem_iff r₁ r₂ hs₁.1 hs₂.1 (fun p => ?_)
    rw [hm₁ p, hm₂ p]
    constructor
    · rintro (hp | ⟨s, hs, hp⟩)
      · exact Or.inl hp
      · exact Or.inr ⟨s, h.mem_iff.1 hs, hp⟩
    · rintro (hp | ⟨s, hs, hp⟩)
      · exact Or.inl hp
      · exact Or.inr ⟨s, h.mem_iff.2 hs, hp⟩

/-- Witness for C9: two orders of the same three exports give the same map,
`2 -> NtOpenFile, 15 -> NtClose`. -/
theorem find_syscalls_perm_witness :
    [export_NtClose, export_ZwClose, export_NtOpenFile].Perm
      [export_NtOpenFile, export_NtClose, export_ZwClose] ∧
    find_syscalls [export_NtClose, export_ZwClose, export_NtOpenFile] example_image =
      Except.ok [(2, "NtOpenFile".toList), (15, "NtClose".toList)] ∧
    find_syscalls [export_NtOpenFile, export_NtClose, export_ZwClose] example_image =
      Except.ok [(2, "NtOpenFile".toList), (15, "NtClose".toList)] :=
  have hperm : [export_NtClose, export_ZwClose, export_NtOpenFile].Perm
      [export_NtOpenFile, export_NtClose, export_ZwClose] :=
    ((List.Perm.swap export_NtOpenFile export_ZwClose []).cons export_NtClose).trans
      ((List.Perm.swap export_NtOpenFile export_NtClose [export_ZwClose]))
  have h := find_syscalls_perm _ _ example_image hperm
  have h₁ : find_syscalls [export_NtClose, export_ZwClose, export_NtOpenFile] example_image =
      Except.ok [(2, "NtOpenFile".toList), (15, "NtClose".toList)] := rfl
  ⟨hperm, h₁, by
    cases h₂ : find_syscalls [export_NtOpenFile, export_NtClose, export_ZwClose] example_image with
    | ok r₂ => rw [h.2 _ r₂ h₁ h₂]
    | error msg =>
        obtain ⟨msg₁, hmsg₁⟩ := h.1.2 ⟨msg, h₂⟩
        rw [h₁] at hmsg₁; cases hmsg₁⟩

/-- C10: whenever `find_syscalls` succeeds, the returned map contains the pair
`(id, name)` if and only if some export with that name yields that ID under
`extract_syscall_id`; its keys are enumerated in strictly ascending order, so
they are unique, and every name in it is non-empty. -/
theorem find_syscalls_result (exports : List exported_symbol) (data : List byte)
    (r : std_map (List Char)) (h : find_syscalls exports data = Except.ok r) :
    (∀ id name, (id, name) ∈ r ↔
      ∃ s ∈ exports, s.name = name ∧ extract_syscall_id s data = some id) ∧
    (r.map Prod.fst).Pairwise (fun a b => a < b) ∧
    (r.map Prod.fst).Nodup ∧
    (∀ p ∈ r, p.2 ≠ []) := by
  obtain ⟨hs, hm⟩ := find_syscalls_loop_ok data exports [] r scanned_map_nil h
  have hsorted : (r.map Prod.fst).Pairwise (fun a b => a < b) :=
    List.pairwise_map.2 hs.1
  refine ⟨?_, hsorted, ?_, hs.2⟩
  · intro id name
    rw [hm (id, name)]
    constructor
    · rintro (hp | ⟨s, hs, h1, h2⟩)
      · exact absurd hp (List.not_mem_nil _)
      · exact ⟨s, hs, h2, h1⟩
    · rintro ⟨s, hs, h2, h1⟩
      exact Or.inr ⟨s, hs, h1, h2⟩
  · exact List.Pairwise.imp (fun {a b} hab => Nat.ne_of_lt hab) hsorted

/-- Witness for C10: the scan of `NtClose`, `ZwClose`, `NtOpenFile` over
`example_image` succeeds with `2 -> NtOpenFile, 15 -> NtClose`: the keys are
ascending although `NtClose` comes first in the export list, and `ZwClose`,
which points at the same stub, is not in the map. -/
theorem find_syscalls_result_witness :
    find_syscalls [export_NtClose, export_ZwClose, export_NtOpenFile] example_image =
      Except.ok [(2, "NtOpenFile".toList), (15, "NtClose".toList)] ∧
    ([(2, "NtOpenFile".toList), (15, "NtClose".toList)].map Prod.fst).Pairwise
      (fun a b => a < b) ∧
    ((15, "NtClose".toList) ∈ [(2, "NtOpenFile".toList), (15, "NtClose".toList)] ↔
      ∃ s ∈ [export_NtClose, export_ZwClose, export_NtOpenFile],
        s.name = "NtClose".toList ∧ extract_syscall_id s example_image = some 15) :=
  have h := find_syscalls_result [export_NtClose, export_ZwClose, export_NtOpenFile]
    example_image [(2, "NtOpenFile".toList), (15, "NtClose".toList)] rfl
  ⟨rfl, h.2.1, h.1 15 "NtClose".toList⟩

/-! ## Table builder lemmas -/

theorem std_map.find_assign_self {V : Type} (m : std_map V) (key : Nat) (v : V) :
    std_map.find (std_map.assign m key v) key = some v := by
  induction m with
  | nil => simp [std_map.assign, std_map.find]
  | cons p rest ih =>
      obtain ⟨k, w⟩ := p
      by_cases h1 : key < k
      · simp [std_map.assign, std_map.find, h1]
      · by_cases h2 : key = k
        · simp [std_map.assign, std_map.find, h2]
        · have h3 : k ≠ key := fun e => h2 e.symm
          simp [std_map.assign, std_map.find, h1, h2, h3, ih]

theorem std_map.find_assign_ne {V : Type} (m : std_map V) (key other : Nat) (v : V)
    (h : other ≠ key) :
    std_map.find (std_map.assign m key v) other = std_map.find m other := by
  have h' : key ≠ other := fun e => h e.symm
  induction m with
  | nil => simp [std_map.assign, std_map.find, h']
  | cons p rest ih =>
      obtain ⟨k, w⟩ := p
      by_cases h1 : key < k
      · simp [std_map.assign, std_map.find, h1, h']
      · by_cases h2 : key = k
        · subst h2
          simp [std_map.assign, std_map.find, h']
        · by_cases h3 : k = other
          · subst h3
            simp [std_map.assign, std_map.find, h1, h2]
          · simp [std_map.assign, std_map.find, h1, h2, h3, ih]

theorem map_syscalls_loop_throw (handlers : std_map syscall_handler_entry) (id : Nat)
    (name : List Char) (rest : std_map (List Char)) (h : stored_name handlers id ≠ []) :
    map_syscalls_loop ((id, name) :: rest) handlers =
      { handlers := handlers,
        thrown := some (map_syscalls_error id name (stored_name handlers id)) } := by
  unfold stored_name at h ⊢
  cases hf : std_map.find handlers id with
  | none => rw [hf] at h; exact absurd rfl h
  | some entry =>
      rw [hf] at h
      have he : entry.name.isEmpty = false := by
        cases hn : entry.name with
        | nil => exact absurd hn h
        | cons _ _ => rfl
      simp [map_syscalls_loop, std_map.subscript, hf, he]

theorem map_syscalls_loop_continue (handlers : std_map syscall_handler_entry) (id : Nat)
    (name : List Char) (rest : std_map (List Char)) (h : stored_name handlers id = []) :
    map_syscalls_loop ((id, name) :: rest) handlers =
      map_syscalls_loop rest (std_map.assign handlers id { handler := none, name := name }) := by
  unfold stored_name at h
  cases hf : std_map.find handlers id with
  | none =>
      have hd : (default : syscall_handler_entry).name = [] := rfl
      simp [map_syscalls_loop, std_map.subscript, hf, hd, std_map.assign_assign]
  | some entry =>
      rw [hf] at h
      simp only at h
      simp [map_syscalls_loop, std_map.subscript, hf, h]

theorem stored_name_assign_ne (handlers : std_map syscall_handler_entry) (key other : Nat)
    (v : syscall_handler_entry) (h : other ≠ key) :
    stored_name (std_map.assign handlers key v) other = stored_name handlers other := by
  unfold stored_name
  rw [std_map.find_assign_ne handlers key other v h]

theorem map_syscalls_loop_conflict :
    ∀ (incoming : std_map (List Char)) (handlers : std_map syscall_handler_entry) (id : Nat)
      (name : List Char) (e : syscall_handler_entry),
      (id, name) ∈ incoming → std_map.find handlers id = some e → e.name ≠ [] →
      (∃ msg, (map_syscalls_loop incoming handlers).thrown = some msg) ∧
        std_map.find (map_syscalls_loop incoming handlers).handlers id = some e := by
  intro incoming
  induction incoming with
  | nil =>
      intro handlers id name e hin _ _
      exact absurd hin (List.not_mem_nil _)
  | cons p rest ih =>
      intro handlers id name e hin hf hne
      obtain ⟨id', name'⟩ := p
      by_cases hs : stored_name handlers id' = []
      · rw [map_syscalls_loop_continue handlers id' name' rest hs]
        have hid : id ≠ id' := by
          intro e1
          rw [← e1] at hs
          unfold stored_name at hs
          rw [hf] at hs
          exact hne hs
        have hin2 : (id, name) ∈ rest := by
          rcases List.mem_cons.1 hin with e1 | e1
          · exact absurd (Prod.mk.inj e1).1 hid
          · exact e1
        exact ih _ id name e hin2
          ((std_map.find_assign_ne handlers id' id _ hid).trans hf) hne
      · rw [map_syscalls_loop_throw handlers id' name' rest hs]
        exact ⟨⟨_, rfl⟩, hf⟩

theorem map_syscalls_loop_free :
    ∀ (incoming : std_map (List Char)) (handlers : std_map syscall_handler_entry),
      keys_ascending incoming →
      (((map_syscalls_loop incoming handlers).thrown = none) ↔
        (∀ p ∈ incoming, stored_name handlers p.1 = [])) ∧
      ((map_syscalls_loop incoming handlers).thrown = none →
        (∀ id name, (id, name) ∈ incoming →
          std_map.find (map_syscalls_loop incoming handlers).handlers id =
            some { handler := none, name := name }) ∧
        (∀ id, (∀ name, (id, name) ∉ incoming) →
          std_map.find (map_syscalls_loop incoming handlers).handlers id =
            std_map.find handlers id)) := by
  intro incoming
  induction incoming with
  | nil =>
      intro handlers _
      simp [map_syscalls_loop]
  | cons p rest ih =>
      intro handlers hk
      obtain ⟨id, name⟩ := p
      unfold keys_ascending at hk
      rw [List.pairwise_cons] at hk
      have hlt : ∀ q ∈ rest, q.1 ≠ id := fun q hq e => by
        have := hk.1 q hq
        simp only at this
        omega
      by_cases hs : stored_name handlers id = []
      · rw [map_syscalls_loop_continue handlers id name rest hs]
        obtain ⟨h1, h2⟩ := ih (std_map.assign handlers id { handler := none, name := name }) hk.2
        refine ⟨?_, ?_⟩
        · rw [h1]
          constructor
          · intro h q hq
            rcases List.mem_cons.1 hq with e | e
            · rw [e]; exact hs
            · rw [← stored_name_assign_ne handlers id q.1 _ (hlt q e)]
              exact h q e
          · intro h q hq
            rw [stored_name_assign_ne handlers id q.1 _ (hlt q hq)]
            exact h q (List.mem_cons_of_mem _ hq)
        · intro hok
          obtain ⟨h3, h4⟩ := h2 hok
          refine ⟨?_, ?_⟩
          · intro id2 name2 hin
            rcases List.mem_cons.1 hin with e | e
            · obtain ⟨e1, e2⟩ := Prod.mk.inj e
              rw [e1, e2, h4 id (fun n hn => hlt (id, n) hn rfl)]
              exact std_map.find_assign_self handlers id _
            · exact h3 id2 name2 e
          · intro id2 hnot
            have hne : id2 ≠ id := fun e =>
              hnot name (by rw [e]; exact List.mem_cons_self _ _)
            rw [h4 id2 (fun n hn => hnot n (List.mem_cons_of_mem _ hn))]
            exact std_map.find_assign_ne handlers id id2 _ hne
      · rw [map_syscalls_loop_throw handlers id name rest hs]
        refine ⟨?_, ?_⟩
        · constructor
          · intro h; cases h
          · intro h
            exact absurd (h (id, name) (List.mem_cons_self _ _)) hs
        · intro h; cases h

theorem std_map.mem_of_mem_assign {V : Type} (m : std_map V) (key : Nat) (v : V)
    (p : Nat × V) (h : p ∈ std_map.assign m key v) : p = (key, v) ∨ p ∈ m := by
  induction m with
  | nil => left; simpa [std_map.assign] using h
  | cons q rest ih =>
      obtain ⟨k, w⟩ := q
      unfold std_map.assign at h
      by_cases h1 : key < k
      · rw [if_pos h1] at h
        rcases List.mem_cons.1 h with e | e
        · exact Or.inl e
        · exact Or.inr e
      · rw [if_neg h1] at h
        by_cases h2 : key = k
        · rw [if_pos h2] at h
          rcases List.mem_cons.1 h with e | e
          · exact Or.inl e
          · exact Or.inr (List.mem_cons_of_mem _ e)
        · rw [if_neg h2] at h
          rcases List.mem_cons.1 h with e | e
          · exact Or.inr (e ▸ List.mem_cons_self _ _)
          · rcases ih e with e2 | e2
            · exact Or.inl e2
            · exact Or.inr (List.mem_cons_of_mem _ e2)

theorem map_syscalls_loop_mem :
    ∀ (incoming : std_map (List Char)) (handlers : std_map syscall_handler_entry)
      (q : Nat × syscall_handler_entry), q ∈ (map_syscalls_loop incoming handlers).handlers →
      q ∈ handlers ∨ ∃ name, (q.1, name) ∈ incoming ∧ q.2 = { handler := none, name := name } := by
  intro incoming
  induction incoming with
  | nil =>
      intro handlers q hq
      exact Or.inl hq
  | cons p rest ih =>
      intro handlers q hq
      obtain ⟨id, name⟩ := p
      by_cases hs : stored_name handlers id = []
      · rw [map_syscalls_loop_continue handlers id name rest hs] at hq
        rcases ih _ q hq with h | ⟨n, hn, hv⟩
        · rcases std_map.mem_of_mem_assign handlers id _ q h with e | e
          · right
            refine ⟨name, ?_, ?_⟩
            · rw [e]; exact List.mem_cons_self _ _
            · rw [e]
          · exact Or.inl e
        · exact Or.inr ⟨n, List.mem_cons_of_mem _ hn, hv⟩
      · rw [map_syscalls_loop_throw handlers id name rest hs] at hq
        exact Or.inl hq

theorem stored_name_eq_nil_iff (handlers : std_map syscall_handler_entry) (id : Nat) :
    stored_name handlers id = [] ↔
      ∀ e, std_map.find handlers id = some e → e.name = [] := by
  unfold stored_name
  cases hf : std_map.find handlers id with
  | none => simp
  | some entry => simp

/-! ## Claims on the table builder -/

/-- C11: if some incoming pair `(id, name)` meets an existing table entry for
`id` whose name is non-empty and different from `name`, `map_syscalls` throws,
and the table it leaves behind still holds that entry with its name and its
handler. -/
theorem map_syscalls_conflict (handlers : std_map syscall_handler_entry)
    (syscalls : std_map (List Char)) (id : Nat) (name : List Char)
    (e : syscall_handler_entry) (hin : (id, name) ∈ syscalls)
    (hentry : std_map.find handlers id = some e) (hnonempty : e.name ≠ [])
    (_hdifferent : e.name ≠ name) :
    (∃ msg, (map_syscalls handlers syscalls).thrown = some msg) ∧
    std_map.find (map_syscalls handlers syscalls).handlers id = some e :=
  map_syscalls_loop_conflict syscalls handlers id name e hin hentry hnonempty

/-- Witness for C11: merging `1 -> NtAccept, 2 -> NtCreateFile` into
`example_table`, where ID 2 is `NtOpenFile` with handler 77, throws, and ID 2
is still `NtOpenFile` with handler 77. -/
theorem map_syscalls_conflict_witness :
    (2, "NtCreateFile".toList) ∈ example_incoming_conflict ∧
    (map_syscalls example_table example_incoming_conflict).thrown =
      some "Syscall with id 2, which is mapping to NtCreateFile, was previously mapped to NtOpenFile".toList ∧
    std_map.find (map_syscalls example_table example_incoming_conflict).handlers 2 =
      some { handler := some 77, name := "NtOpenFile".toList } :=
  have h := map_syscalls_conflict example_table example_incoming_conflict 2
    "NtCreateFile".toList { handler := some 77, name := "NtOpenFile".toList }
    (by decide) rfl (by decide) (by decide)
  ⟨by decide, rfl, h.2⟩

/-- C12: when no incoming ID has an existing entry with a non-empty name,
`map_syscalls` does not throw; afterwards every incoming `(id, name)` has an
entry with that name and no handler, the lookup of every ID that is not in the
incoming mapping gives what it gave before, and every entry of the table is
either an entry it had or the entry of an incoming pair. -/
theorem map_syscalls_merge (handlers : std_map syscall_handler_entry)
    (syscalls : std_map (List Char)) (hmap : keys_ascending syscalls)
    (hfree : ∀ p ∈ syscalls, ∀ e, std_map.find handlers p.1 = some e → e.name = []) :
    (map_syscalls handlers syscalls).thrown = none ∧
    (∀ id name, (id, name) ∈ syscalls →
      std_map.find (map_syscalls handlers syscalls).handlers id =
        some { handler := none, name := name }) ∧
    (∀ id, (∀ name, (id, name) ∉ syscalls) →
      std_map.find (map_syscalls handlers syscalls).handlers id = std_map.find handlers id) ∧
    (∀ q ∈ (map_syscalls handlers syscalls).handlers,
      q ∈ handlers ∨ ∃ name, (q.1, name) ∈ syscalls ∧ q.2 = { handler := none, name := name }) := by
  obtain ⟨h1, h2⟩ := map_syscalls_loop_free syscalls handlers hmap
  have hok : (map_syscalls handlers syscalls).thrown = none :=
    h1.2 (fun p hp => (stored_name_eq_nil_iff handlers p.1).2 (hfree p hp))
  exact ⟨hok, (h2 hok).1, (h2 hok).2, map_syscalls_loop_mem syscalls handlers⟩

/-- Witness for C12: merging `1 -> NtAccept, 7 -> NtWrite` into `example_table`,
where ID 7 has an empty name and handler 5, succeeds; ID 7 becomes `NtWrite`
without a handler, ID 1 is added, and ID 2 keeps `NtOpenFile` with handler 77. -/
theorem map_syscalls_merge_witness :
    keys_ascending example_incoming_free ∧
    (map_syscalls example_table example_incoming_free).thrown = none ∧
    std_map.find (map_syscalls example_table example_incoming_free).handlers 7 =
      some { handler := none, name := "NtWrite".toList } ∧
    std_map.find (map_syscalls example_table example_incoming_free).handlers 2 =
      some { handler := some 77, name := "NtOpenFile".toList } :=
  have hk : keys_ascending example_incoming_free := by
    unfold keys_ascending example_incoming_free
    decide
  have h := map_syscalls_merge example_table example_incoming_free hk (by
    intro p hp e he
    rcases List.mem_cons.1 hp with e1 | e1
    · rw [e1] at he; cases he
    · rcases List.mem_cons.1 e1 with e2 | e2
      · rw [e2] at he; cases he; rfl
      · exact absurd e2 (List.not_mem_nil _))
  ⟨hk, h.1, h.2.1 7 "NtWrite".toList (by decide),
    (h.2.2.1 2 (fun name hn => by
      rcases List.mem_cons.1 hn with e1 | e1
      · exact absurd (Prod.mk.inj e1).1 (by decide)
      · rcases List.mem_cons.1 e1 with e2 | e2
        · exact absurd (Prod.mk.inj e2).1 (by decide)
        · exact absurd e2 (List.not_mem_nil _))).trans rfl⟩

/-- C20: `map_syscalls` is not idempotent.  When the incoming mapping holds at
least one pair with a non-empty name and `map_syscalls(table, m)` succeeds,
every incoming ID is then stored under exactly its incoming name, and
`map_syscalls` with the same `m` on the resulting table throws.  In
particular a non-empty successful result of `find_syscalls` merges into the
empty table and fails to merge a second time. -/
theorem map_syscalls_not_idempotent (handlers : std_map syscall_handler_entry)
    (syscalls : std_map (List Char)) (hmap : keys_ascending syscalls)
    (hnamed : ∃ p ∈ syscalls, p.2 ≠ [])
    (hok : (map_syscalls handlers syscalls).thrown = none) :
    (∀ id name, (id, name) ∈ syscalls →
      stored_name (map_syscalls handlers syscalls).handlers id = name) ∧
    (∃ msg, (map_syscalls (map_syscalls handlers syscalls).handlers syscalls).thrown =
      some msg) ∧
    (∀ exports data r, find_syscalls exports data = Except.ok r → r ≠ [] →
      (map_syscalls [] r).thrown = none ∧
      ∃ msg, (map_syscalls (map_syscalls [] r).handlers r).thrown = some msg) := by
  have second : ∀ (table : std_map syscall_handler_entry) (m : std_map (List Char)),
      keys_ascending m → (∃ p ∈ m, p.2 ≠ []) → (map_syscalls table m).thrown = none →
      ∃ msg, (map_syscalls (map_syscalls table m).handlers m).thrown = some msg := by
    intro table m hm hn hs
    obtain ⟨p, hp, hne⟩ := hn
    have hstored := ((map_syscalls_loop_free m table hm).2 hs).1 p.1 p.2 hp
    exact (map_syscalls_loop_conflict m _ p.1 p.2 _ hp hstored hne).1
  refine ⟨?_, second handlers syscalls hmap hnamed hok, ?_⟩
  · intro id name hin
    have hstored := ((map_syscalls_loop_free syscalls handlers hmap).2 hok).1 id name hin
    unfold stored_name
    unfold map_syscalls
    rw [hstored]
  · intro exports data r hr hne
    obtain ⟨hs, _⟩ := find_syscalls_loop_ok data exports [] r scanned_map_nil hr
    have hfirst : (map_syscalls [] r).thrown = none :=
      (map_syscalls_loop_free r [] hs.1).1.2 (fun _ _ => rfl)
    refine ⟨hfirst, second [] r hs.1 ?_ hfirst⟩
    cases r with
    | nil => exact absurd rfl hne
    | cons p rest => exact ⟨p, List.mem_cons_self _ _, hs.2 p (List.mem_cons_self _ _)⟩

/-- Witness for C20: the scan of `NtClose` and `NtOpenFile` over
`example_image` merges into the empty table, and merging the same mapping
into the result throws at ID 2 although `NtOpenFile` is the name already
stored there. -/
theorem map_syscalls_not_idempotent_witness :
    (map_syscalls [] [(2, "NtOpenFile".toList), (15, "NtClose".toList)]).thrown = none ∧
    (map_syscalls
        (map_syscalls [] [(2, "NtOpenFile".toList), (15, "NtClose".toList)]).handlers
        [(2, "NtOpenFile".toList), (15, "NtClose".toList)]).thrown =
      some "Syscall with id 2, which is mapping to NtOpenFile, was previously mapped to NtOpenFile".toList ∧
    stored_name (map_syscalls [] [(2, "NtOpenFile".toList), (15, "NtClose".toList)]).handlers 2 =
      "NtOpenFile".toList :=
  have hk : keys_ascending [(2, "NtOpenFile".toList), (15, "NtClose".toList)] := by
    unfold keys_ascending
    decide
  have h := map_syscalls_not_idempotent [] [(2, "NtOpenFile".toList), (15, "NtClose".toList)]
    hk ⟨(2, "NtOpenFile".toList), by decide, by decide⟩ rfl
  ⟨rfl, rfl, h.1 2 "NtOpenFile".toList (by decide)⟩

/-! ## Claims on the naming convention -/

/-- C19: for every ASCII character `c`, `is_uppercase(c)` is true if and only
if `c` is not one of the lowercase letters `a` to `z`, so digits, the
underscore and other punctuation count as upper-case; hence, for a name whose
third character is ASCII, `is_syscall(name)` holds exactly when the name
starts with `Nt`, has at least 4 characters and its third character is not a
lowercase letter; `Nt_x` and `Nt1x` are accepted. -/
theorem is_syscall_iff_third_not_lowercase :
    (∀ c : Char, c.toNat < 128 → (is_uppercase c = true ↔ ¬ ('a' ≤ c ∧ c ≤ 'z'))) ∧
    (is_uppercase '_' = true ∧ is_uppercase '1' = true ∧ is_uppercase 'Z' = true ∧
      is_uppercase '~' = true ∧ is_uppercase 'a' = false ∧ is_uppercase 'z' = false) ∧
    (∀ name : List Char, (∀ c, name[2]? = some c → c.toNat < 128) →
      (is_syscall name = true ↔
        (['N', 't'] <+: name ∧ 4 ≤ name.length ∧
          ∃ c, name[2]? = some c ∧ ¬ ('a' ≤ c ∧ c ≤ 'z')))) ∧
    is_syscall "Nt_x".toList = true ∧ is_syscall "Nt1x".toList = true ∧
    is_syscall "NtClose".toList = true ∧ is_syscall "Ntdll".toList = false ∧
    is_syscall "NtX".toList = false ∧ is_syscall "ZwClose".toList = false := by
  refine ⟨is_uppercase_ascii_iff,
    ⟨by decide, by decide, by decide, by decide, by decide, by decide⟩, ?_,
    by decide, by decide, by decide, by decide, by decide, by decide⟩
  intro name hascii
  unfold is_syscall
  simp only [Bool.and_eq_true, decide_eq_true_eq, List.isPrefixOf_iff_prefix]
  constructor
  · rintro ⟨⟨h1, h2⟩, h3⟩
    have hlt : 2 < name.length := by omega
    have hget : name[2]? = some (name.getD 2 'A') := by
      rw [List.getD_eq_getElem _ _ hlt, List.getElem?_eq_getElem hlt]
    exact ⟨h1, h2, name.getD 2 'A', hget,
      (is_uppercase_ascii_iff _ (hascii _ hget)).1 h3⟩
  · rintro ⟨h1, h2, c, hc, h3⟩
    refine ⟨⟨h1, h2⟩, ?_⟩
    have e : name.getD 2 'A' = c := by
      rw [List.getD_eq_getElem?_getD, hc]; rfl
    rw [e]
    exact (is_uppercase_ascii_iff c (hascii c hc)).2 h3

/-! ## Time conversion lemmas -/

theorem to_int64_of_representable (x : Int) (h1 : -2 ^ 63 ≤ x) (h2 : x < 2 ^ 63) :
    to_int64 x = x := by
  unfold to_int64
  omega

theorem tdiv_cases (a b : Int) (hb : 0 < b) :
    (0 ≤ a ∧ Int.tdiv a b = a / b) ∨ (a < 0 ∧ Int.tdiv a b = -((-a) / b)) := by
  rcases le_or_lt 0 a with h | h
  · exact Or.inl ⟨h, Int.tdiv_eq_ediv h (le_of_lt hb)⟩
  · refine Or.inr ⟨h, ?_⟩
    have h1 : Int.tdiv (-a) b = (-a) / b := Int.tdiv_eq_ediv (by omega) (le_of_lt hb)
    rw [Int.neg_tdiv] at h1
    omega

theorem tmod_eq_sub (a b : Int) : Int.tmod a b = a - b * Int.tdiv a b := by
  have := Int.tmod_add_tdiv a b
  omega

theorem WINDOWS_EPOCH_DIFFERENCE_eq : WINDOWS_EPOCH_DIFFERENCE = 116444736000000000 := by
  decide

theorem total_ticks_eq (tp : Int) (h1 : -2 ^ 63 ≤ tp) (h2 : tp < 2 ^ 63) :
    total_ticks tp = Int.tdiv tp 100 + 116444736000000000 ∧
    24211015631452242 ≤ total_ticks tp ∧ total_ticks tp ≤ 208678456368547758 := by
  unfold total_ticks
  rw [WINDOWS_EPOCH_DIFFERENCE_eq]
  have hb : -92233720368547758 ≤ Int.tdiv tp 100 ∧ Int.tdiv tp 100 ≤ 92233720368547758 := by
    rcases tdiv_cases tp 100 (by decide) with ⟨h, e⟩ | ⟨h, e⟩ <;> rw [e] <;> omega
  rw [to_int64_of_representable _ (by omega) (by omega)]
  omega

theorem int64_or_high_low (H : Int) (L : Nat) (hH1 : 0 ≤ H) (hH2 : H < 2 ^ 31)
    (hL : L < 2 ^ 32) :
    int64_or (to_int64 (H * 2 ^ 32)) (L : Int) = H * 2 ^ 32 + L := by
  unfold int64_or
  rw [to_int64_of_representable (H * 2 ^ 32) (by omega) (by omega)]
  have e1 : to_uint64 (H * 2 ^ 32) = 2 ^ 32 * H.toNat := by
    unfold to_uint64
    omega
  have e2 : to_uint64 (L : Int) = L := by
    unfold to_uint64
    omega
  rw [e1, e2, ← Nat.mul_add_lt_is_or hL]
  have e3 : ((2 ^ 32 * H.toNat + L : Nat) : Int) = H * 2 ^ 32 + L := by
    push_cast
    omega
  rw [e3]
  exact to_int64_of_representable _ (by omega) (by omega)

theorem convert_to_ksystem_time_fields (tp : Int) (h1 : -2 ^ 63 ≤ tp) (h2 : tp < 2 ^ 63) :
    ((convert_to_ksystem_time tp).LowPart : Int) = total_ticks tp % 2 ^ 32 ∧
    (convert_to_ksystem_time tp).High1Time = total_ticks tp / 2 ^ 32 ∧
    (convert_to_ksystem_time tp).High2Time = (convert_to_ksystem_time tp).High1Time ∧
    0 ≤ (convert_to_ksystem_time tp).High1Time ∧
    (convert_to_ksystem_time tp).High1Time < 2 ^ 31 ∧
    (convert_to_ksystem_time tp).LowPart < 2 ^ 32 := by
  obtain ⟨_, hlo, hhi⟩ := total_ticks_eq tp h1 h2
  have hshift : total_ticks tp >>> (32 : Nat) = total_ticks tp / 2 ^ 32 := by
    rw [Int.shiftRight_eq_div_pow]
    norm_num
  have hhigh : to_int32 (total_ticks tp >>> (32 : Nat)) = total_ticks tp / 2 ^ 32 := by
    rw [hshift]
    unfold to_int32
    omega
  have hlow : ((to_uint32 (total_ticks tp) : Nat) : Int) = total_ticks tp % 2 ^ 32 := by
    unfold to_uint32
    omega
  refine ⟨hlow, hhigh, rfl, ?_, ?_, ?_⟩
  · show 0 ≤ to_int32 (total_ticks tp >>> (32 : Nat))
    rw [hhigh]; omega
  · show to_int32 (total_ticks tp >>> (32 : Nat)) < 2 ^ 31
    rw [hhigh]; omega
  · show to_uint32 (total_ticks tp) < 2 ^ 32
    unfold to_uint32
    omega

/-! ## Claims on the time conversions -/

/-- C18: for every wall-clock instant `tp` (signed 64-bit nanoseconds since the
Unix epoch), `convert_to_ksystem_time(tp)` has
`ticks = tp / 100 + 116444736000000000` with truncating division,
`LowPart = ticks mod 2 ^ 32`, `High1Time` the signed 32-bit value of `ticks`
shifted right by 32, which is `ticks / 2 ^ 32` without loss, and
`High2Time = High1Time`; so `High1Time * 2 ^ 32 + LowPart = ticks`. -/
theorem convert_to_ksystem_time_split (tp : Int) (h1 : -2 ^ 63 ≤ tp) (h2 : tp < 2 ^ 63) :
    total_ticks tp = Int.tdiv tp 100 + 116444736000000000 ∧
    ((convert_to_ksystem_time tp).LowPart : Int) = total_ticks tp % 2 ^ 32 ∧
    (convert_to_ksystem_time tp).High1Time = to_int32 (total_ticks tp >>> (32 : Nat)) ∧
    (convert_to_ksystem_time tp).High1Time = total_ticks tp / 2 ^ 32 ∧
    (convert_to_ksystem_time tp).High2Time = (convert_to_ksystem_time tp).High1Time ∧
    (convert_to_ksystem_time tp).High1Time * 2 ^ 32 + (convert_to_ksystem_time tp).LowPart =
      total_ticks tp := by
  obtain ⟨ht, _, _⟩ := total_ticks_eq tp h1 h2
  obtain ⟨hlow, hhigh, hdup, _, _, _⟩ := convert_to_ksystem_time_fields tp h1 h2
  refine ⟨ht, hlow, rfl, hhigh, hdup, ?_⟩
  rw [hhigh, hlow]
  omega

/-- Witness for C18: the Unix epoch itself, `tp = 0`, has
`ticks = 116444736000000000 = 27111902 * 2 ^ 32 + 3577643008`. -/
theorem convert_to_ksystem_time_split_witness :
    total_ticks 0 = 116444736000000000 ∧
    convert_to_ksystem_time 0 =
      { LowPart := 3577643008, High1Time := 27111902, High2Time := 27111902 } ∧
    (27111902 : Int) * 2 ^ 32 + 3577643008 = 116444736000000000 :=
  have h := convert_to_ksystem_time_split 0 (by decide) (by decide)
  ⟨h.1.trans (by decide), by decide, by decide⟩

/-- C14: for every wall-clock instant `tp` (signed 64-bit nanoseconds since the
Unix epoch), `convert_from_ksystem_time(convert_to_ksystem_time(tp))` is
exactly `(tp / 100) * 100` with truncating division; it differs from `tp` by
less than 100 ns and equals `tp` whenever `tp` is a multiple of 100 ns. -/
theorem convert_ksystem_time_roundtrip (tp : Int) (h1 : -2 ^ 63 ≤ tp) (h2 : tp < 2 ^ 63) :
    convert_from_ksystem_time (convert_to_ksystem_time tp) = Int.tdiv tp 100 * 100 ∧
    -100 < tp - convert_from_ksystem_time (convert_to_ksystem_time tp) ∧
    tp - convert_from_ksystem_time (convert_to_ksystem_time tp) < 100 ∧
    (100 ∣ tp → convert_from_ksystem_time (convert_to_ksystem_time tp) = tp) := by
  obtain ⟨ht, hlo, hhi⟩ := total_ticks_eq tp h1 h2
  obtain ⟨hlow, hhigh, _, hH1, hH2, hL⟩ := convert_to_ksystem_time_fields tp h1 h2
  have hsum : (convert_to_ksystem_time tp).High1Time * 2 ^ 32 +
      (convert_to_ksystem_time tp).LowPart = total_ticks tp := by
    rw [hhigh, hlow]
    omega
  have hb : -92233720368547758 ≤ Int.tdiv tp 100 ∧ Int.tdiv tp 100 ≤ 92233720368547758 ∧
      -100 < tp - Int.tdiv tp 100 * 100 ∧ tp - Int.tdiv tp 100 * 100 < 100 ∧
      (100 ∣ tp → Int.tdiv tp 100 * 100 = tp) := by
    rcases tdiv_cases tp 100 (by decide) with ⟨h, e⟩ | ⟨h, e⟩ <;> rw [e] <;>
      refine ⟨by omega, by omega, by omega, by omega, fun hd => ?_⟩ <;> omega
  have hval : convert_from_ksystem_time (convert_to_ksystem_time tp) = Int.tdiv tp 100 * 100 := by
    unfold convert_from_ksystem_time
    simp only []
    rw [int64_or_high_low _ _ hH1 hH2 hL, hsum, WINDOWS_EPOCH_DIFFERENCE_eq, ht]
    rw [to_int64_of_representable (Int.tdiv tp 100 + 116444736000000000 - 116444736000000000)
      (by omega) (by omega)]
    rw [to_int64_of_representable _ (by omega) (by omega)]
    omega
  rw [hval]
  exact ⟨rfl, hb.2.2.1, hb.2.2.2.1, hb.2.2.2.2⟩

/-- Witness for C14: `tp = -150` ns comes back as `-100` ns, the truncating
quotient `-1` times 100. -/
theorem convert_ksystem_time_roundtrip_witness :
    (-2 ^ 63 : Int) ≤ -150 ∧ (-150 : Int) < 2 ^ 63 ∧
    convert_from_ksystem_time (convert_to_ksystem_time (-150)) = -100 :=
  have h := convert_ksystem_time_roundtrip (-150) (by decide) (by decide)
  ⟨by decide, by decide, h.1.trans (by decide)⟩

/-- C15: for every Unix timestamp `t` such that `(t + 11644473600) * 10000000`
fits in a signed 64-bit integer, `convert_unix_to_windows_time(t).QuadPart` is
that product; it is positive, so that `convert_delay_interval_to_time_point`
takes its absolute branch, exactly when `t > -11644473600`, and then the
absolute-branch arithmetic gives back `seconds = t` and a remainder of 0 ns. -/
theorem convert_unix_to_windows_time_decodes (t : Int)
    (h1 : -2 ^ 63 ≤ (t + 11644473600) * 10000000)
    (h2 : (t + 11644473600) * 10000000 < 2 ^ 63) :
    convert_unix_to_windows_time t = (t + 11644473600) * 10000000 ∧
    (0 < convert_unix_to_windows_time t ↔ -11644473600 < t) ∧
    (-11644473600 < t →
      delay_seconds_since_1601 (convert_unix_to_windows_time t) = t + 11644473600 ∧
      delay_seconds_since_1970 (convert_unix_to_windows_time t) = t ∧
      delay_fraction_ns (convert_unix_to_windows_time t) = 0 ∧
      ∀ now_system now_steady,
        convert_delay_interval_to_time_point now_system now_steady
            (convert_unix_to_windows_time t) =
          to_int64 (now_steady + to_int64
            (duration_until_target now_system (convert_unix_to_windows_time t) * 1000))) := by
  have hq : convert_unix_to_windows_time t = (t + 11644473600) * 10000000 := by
    unfold convert_unix_to_windows_time EPOCH_DIFFERENCE_1601_TO_1970_SECONDS
      HUNDRED_NANOSECONDS_IN_ONE_SECOND
    rw [to_int64_of_representable (t + 11644473600) (by omega) (by omega)]
    exact to_int64_of_representable _ h1 h2
  refine ⟨hq, ?_, ?_⟩
  · rw [hq]; omega
  · intro ht
    rw [hq]
    have hpos : 0 ≤ (t + 11644473600) * 10000000 := by omega
    have hs : delay_seconds_since_1601 ((t + 11644473600) * 10000000) = t + 11644473600 := by
      unfold delay_seconds_since_1601 HUNDRED_NANOSECONDS_IN_ONE_SECOND
      rw [Int.tdiv_eq_ediv hpos (by decide)]
      omega
    refine ⟨hs, ?_, ?_, ?_⟩
    · unfold delay_seconds_since_1970 EPOCH_DIFFERENCE_1601_TO_1970_SECONDS
      rw [hs, to_int64_of_representable _ (by omega) (by omega)]
      omega
    · unfold delay_fraction_ns HUNDRED_NANOSECONDS_IN_ONE_SECOND
      rw [Int.tmod_eq_emod hpos (by decide)]
      have : (t + 11644473600) * 10000000 % 10000000 = 0 := by omega
      rw [this]
      decide
    · intro now_system now_steady
      unfold convert_delay_interval_to_time_point
      rw [if_neg (by omega)]

/-- Witness for C15: the Unix epoch, `t = 0`, encodes as `116444736000000000`
and decodes to 0 seconds and 0 ns. -/
theorem convert_unix_to_windows_time_decodes_witness :
    convert_unix_to_windows_time 0 = 116444736000000000 ∧
    delay_seconds_since_1970 (convert_unix_to_windows_time 0) = 0 ∧
    delay_fraction_ns (convert_unix_to_windows_time 0) = 0 :=
  have h := convert_unix_to_windows_time_decodes 0 (by decide) (by decide)
  ⟨h.1.trans (by decide), (h.2.2 (by decide)).2.1, (h.2.2 (by decide)).2.2.1⟩

/-- C16, the claim as stated fails: `Q = -92233720368547758` satisfies
`-2 ^ 63 < Q <= 0` and `|Q| * 100 = 9223372036854775800` is representable in a
signed 64-bit integer, but with the monotonic clock at `10 ^ 12` ns the sum
`now + |Q| * 100` is not representable; the 64-bit addition gives
`-9223371036854775816`, an instant before `now`. -/
theorem convert_delay_interval_relative_overflow :
    (-2 ^ 63 : Int) < -92233720368547758 ∧ (-92233720368547758 : Int) ≤ 0 ∧
    (92233720368547758 : Int) * 100 < 2 ^ 63 ∧
    convert_delay_interval_to_time_point 1700000000000000000 1000000000000
      (-92233720368547758) = -9223371036854775816 ∧
    convert_delay_interval_to_time_point 1700000000000000000 1000000000000
      (-92233720368547758) ≠ 1000000000000 + 92233720368547758 * 100 := by
  have h : convert_delay_interval_to_time_point 1700000000000000000 1000000000000
      (-92233720368547758) = -9223371036854775816 := by
    set_option maxRecDepth 100000 in decide
  refine ⟨by decide, by decide, by decide, h, ?_⟩
  rw [h]
  decide

/-- C16 as amended: for every delay interval `Q` with `-2 ^ 63 < Q <= 0` and
`|Q| * 100` representable in 64 bits, and every monotonic reading `now` for
which `now + |Q| * 100` is representable too,
`convert_delay_interval_to_time_point` returns `now + |Q| * 100` nanoseconds
exactly (the whole microseconds `|Q| / 10` plus the remainder
`(|Q| mod 10) * 100` ns); for `Q = -100000000` that is `now + 10` seconds and
for `Q = 0` it is `now`. -/
theorem convert_delay_interval_relative (now_system now_steady Q : Int)
    (hQ1 : -2 ^ 63 < Q) (hQ2 : Q ≤ 0) (hQ3 : -Q * 100 < 2 ^ 63)
    (hM1 : -2 ^ 63 ≤ now_steady) (hM2 : now_steady + -Q * 100 < 2 ^ 63) :
    convert_delay_interval_to_time_point now_system now_steady Q = now_steady + -Q * 100 ∧
    relative_duration Q = Int.tdiv (-Q) 10 * 1000 + Int.tmod (-Q) 10 * 100 ∧
    (Q = -100000000 →
      convert_delay_interval_to_time_point now_system now_steady Q =
        now_steady + 10 * 1000000000) ∧
    (Q = 0 → convert_delay_interval_to_time_point now_system now_steady Q = now_steady) := by
  have hd : Int.tdiv (-Q) 10 = -Q / 10 := Int.tdiv_eq_ediv (by omega) (by decide)
  have hm : Int.tmod (-Q) 10 = -Q % 10 := Int.tmod_eq_emod (by omega) (by decide)
  have hrel : relative_duration Q = Int.tdiv (-Q) 10 * 1000 + Int.tmod (-Q) 10 * 100 := by
    unfold relative_duration
    simp only []
    rw [to_int64_of_representable (-Q) (by omega) (by omega), hd, hm,
      to_int64_of_representable (-Q % 10 * 100) (by omega) (by omega),
      to_int64_of_representable (-Q / 10 * 1000) (by omega) (by omega),
      to_int64_of_representable _ (by omega) (by omega)]
  have hsum : relative_duration Q = -Q * 100 := by
    rw [hrel, hd, hm]
    omega
  have hres : convert_delay_interval_to_time_point now_system now_steady Q =
      now_steady + -Q * 100 := by
    unfold convert_delay_interval_to_time_point
    rw [if_pos hQ2, hsum]
    exact to_int64_of_representable _ (by omega) hM2
  refine ⟨hres, hrel, ?_, ?_⟩
  · intro e
    rw [hres, e]
    norm_num
  · intro e
    rw [hres, e]
    norm_num

/-- Witness for C16 as amended: `Q = -100000000` with the monotonic clock at
`10 ^ 12` ns gives the deadline `10 ^ 12 + 10 ^ 10` ns, ten seconds later. -/
theorem convert_delay_interval_relative_witness :
    convert_delay_interval_to_time_point 1700000000000000000 1000000000000 (-100000000) =
      1010000000000 :=
  (convert_delay_interval_relative 1700000000000000000 1000000000000 (-100000000)
    (by decide) (by decide) (by decide) (by decide) (by decide)).1.trans (by decide)

/-- C17, the claim as stated fails: `Q = 1`, one tick after 1601-01-01, is a
positive delay interval; with the wall clock at `1.7 * 10 ^ 18` ns and the
monotonic clock at `10 ^ 12` ns the claimed deadline `M + d` lies below
`-2 ^ 63` and is no 64-bit instant, and the 64-bit arithmetic of the code
returns `5102271473709551000`, an instant long after `M` although the target
lies in the past. -/
theorem convert_delay_interval_absolute_overflow :
    (0 : Int) < 1 ∧
    convert_delay_interval_to_time_point 1700000000000000000 1000000000000 1 =
      5102271473709551000 ∧
    (1000000000000 : Int) +
        Int.tdiv ((1 - 116444736000000000) * 100 - 1700000000000000000) 1000 * 1000 =
      -13344472599999999000 ∧
    convert_delay_interval_to_time_point 1700000000000000000 1000000000000 1 ≠
      1000000000000 +
        Int.tdiv ((1 - 116444736000000000) * 100 - 1700000000000000000) 1000 * 1000 := by
  have h : convert_delay_interval_to_time_point 1700000000000000000 1000000000000 1 =
      5102271473709551000 := by
    set_option maxRecDepth 100000 in decide
  have h2 : (1000000000000 : Int) +
        Int.tdiv ((1 - 116444736000000000) * 100 - 1700000000000000000) 1000 * 1000 =
      -13344472599999999000 := by decide
  refine ⟨by decide, h, h2, ?_⟩
  rw [h, h2]
  decide

/-- C17 as amended: for every delay interval `Q` between `24211015640000000`
and `208678456368547758`, the range in which the target instant
`(Q - 116444736000000000) * 100` ns and its whole seconds are representable as
signed 64-bit nanoseconds, and for clock readings `W` (wall clock) and `M`
(monotonic) for which the gap between the target and `W` and the sum `M + d`
are representable, the call returns `M + d`, where `d` is the gap truncated
toward zero to whole microseconds; `d` differs from the gap by less than one
microsecond. -/
theorem convert_delay_interval_absolute (W M Q : Int)
    (hQ1 : 24211015640000000 ≤ Q) (hQ2 : Q ≤ 208678456368547758)
    (hW1 : -2 ^ 63 ≤ (Q - 116444736000000000) * 100 - W)
    (hW2 : (Q - 116444736000000000) * 100 - W < 2 ^ 63)
    (hM1 : -2 ^ 63 ≤ M + Int.tdiv ((Q - 116444736000000000) * 100 - W) 1000 * 1000)
    (hM2 : M + Int.tdiv ((Q - 116444736000000000) * 100 - W) 1000 * 1000 < 2 ^ 63) :
    target_time Q = (Q - 116444736000000000) * 100 ∧
    convert_delay_interval_to_time_point W M Q =
      M + Int.tdiv ((Q - 116444736000000000) * 100 - W) 1000 * 1000 ∧
    -1000 < (Q - 116444736000000000) * 100 - W -
      Int.tdiv ((Q - 116444736000000000) * 100 - W) 1000 * 1000 ∧
    (Q - 116444736000000000) * 100 - W -
      Int.tdiv ((Q - 116444736000000000) * 100 - W) 1000 * 1000 < 1000 := by
  have hpos : 0 ≤ Q := by omega
  have hs : delay_seconds_since_1601 Q = Q / 10000000 := by
    unfold delay_seconds_since_1601 HUNDRED_NANOSECONDS_IN_ONE_SECOND
    exact Int.tdiv_eq_ediv hpos (by decide)
  have hf : delay_fraction_ns Q = Q % 10000000 * 100 := by
    unfold delay_fraction_ns HUNDRED_NANOSECONDS_IN_ONE_SECOND
    rw [Int.tmod_eq_emod hpos (by decide)]
    exact to_int64_of_representable _ (by omega) (by omega)
  have h70 : delay_seconds_since_1970 Q = Q / 10000000 - 11644473600 := by
    unfold delay_seconds_since_1970 EPOCH_DIFFERENCE_1601_TO_1970_SECONDS
    rw [hs]
    exact to_int64_of_representable _ (by omega) (by omega)
  have ht : target_time Q = (Q - 116444736000000000) * 100 := by
    unfold target_time
    rw [h70, hf, to_int64_of_representable ((Q / 10000000 - 11644473600) * 1000000000)
      (by omega) (by omega), to_int64_of_representable _ (by omega) (by omega)]
    omega
  have hgap : -1000 < (Q - 116444736000000000) * 100 - W -
        Int.tdiv ((Q - 116444736000000000) * 100 - W) 1000 * 1000 ∧
      (Q - 116444736000000000) * 100 - W -
        Int.tdiv ((Q - 116444736000000000) * 100 - W) 1000 * 1000 < 1000 := by
    rcases tdiv_cases ((Q - 116444736000000000) * 100 - W) 1000 (by decide) with
      ⟨h, e⟩ | ⟨h, e⟩ <;> rw [e] <;> constructor <;> omega
  have hrep : -2 ^ 63 ≤ Int.tdiv ((Q - 116444736000000000) * 100 - W) 1000 * 1000 ∧
      Int.tdiv ((Q - 116444736000000000) * 100 - W) 1000 * 1000 < 2 ^ 63 := by
    rcases tdiv_cases ((Q - 116444736000000000) * 100 - W) 1000 (by decide) with
      ⟨h, e⟩ | ⟨h, e⟩ <;> rw [e] <;> constructor <;> omega
  refine ⟨ht, ?_, hgap.1, hgap.2⟩
  unfold convert_delay_interval_to_time_point duration_until_target
  rw [if_neg (by omega), ht, to_int64_of_representable _ hW1 hW2,
    to_int64_of_representable
      (Int.tdiv ((Q - 116444736000000000) * 100 - W) 1000 * 1000) hrep.1 hrep.2]
  exact to_int64_of_representable _ hM1 hM2

/-- Witness for C17 as amended: `Q = 133444736000012345`, 1.7 * 10 ^ 9 seconds
and 12345 ticks after the Unix epoch, with the wall clock at exactly
`1.7 * 10 ^ 18` ns and the monotonic clock at `10 ^ 12` ns: the gap is
1234500 ns and the deadline is `10 ^ 12 + 1234000` ns. -/
theorem convert_delay_interval_absolute_witness :
    target_time 133444736000012345 = 1700000000001234500 ∧
    convert_delay_interval_to_time_point 1700000000000000000 1000000000000
      133444736000012345 = 1000001234000 :=
  have h := convert_delay_interval_absolute 1700000000000000000 1000000000000
    133444736000012345 (by decide) (by decide) (by decide) (by decide) (by decide) (by decide)
  ⟨h.1.trans (by decide), h.2.1.trans (by decide)⟩

/-! ## Claims on the attribute write helper -/

theorem emulator.write_memory_read (emu : emulator) (address : Nat) (data : List byte)
    (hlen : data.length ≤ UINT64_SIZE) (k : Nat) (hk : k < data.length) :
    (emu.write_memory address data).memory ((address + k) % UINT64_SIZE) = data[k] := by
  have e : ((address + k) % UINT64_SIZE + UINT64_SIZE - address % UINT64_SIZE) % UINT64_SIZE
      = k := by
    unfold UINT64_SIZE at hlen ⊢
    omega
  show (data[((address + k) % UINT64_SIZE + UINT64_SIZE - address % UINT64_SIZE)
    % UINT64_SIZE]?).getD _ = _
  rw [e, List.getElem?_eq_getElem hk]
  rfl

theorem emulator.write_memory_frame (emu : emulator) (address : Nat) (data : List byte)
    (a : Nat)
    (h : data.length ≤ (a + UINT64_SIZE - address % UINT64_SIZE) % UINT64_SIZE) :
    (emu.write_memory address data).memory a = emu.memory a := by
  show (data[(a + UINT64_SIZE - address % UINT64_SIZE) % UINT64_SIZE]?).getD _ = _
  rw [List.getElem?_eq_none h]
  rfl

theorem write_attribute_memory_writes (emu : emulator) (SIZE_T_bytes : Nat)
    (attr : PS_ATTRIBUTE) (value : List byte) :
    (write_attribute emu SIZE_T_bytes attr value).memory_writes =
      emu.memory_writes ++
        (if attr.ReturnLength ≠ 0 then
          [(attr.ReturnLength, to_bytes SIZE_T_bytes value.length)] else []) ++
        (if attr.Size ≥ value.length then [(attr.Value, value)] else []) := by
  unfold write_attribute emulator_object_write emulator.write_memory
  by_cases h1 : attr.ReturnLength ≠ 0 <;> by_cases h2 : attr.Size ≥ value.length <;>
    simp [h1, h2]

/-- C13, the claim as stated fails: for the slot whose return-length pointer
equals its value address `0x100`, with capacity 4 below the size 8 of the
value, the value is not copied, yet the guest memory at `Value` does not stay
untouched: the byte at `0x100` was 0 and is 8, the reported size. -/
theorem write_attribute_aliased_touches_value :
    example_aliased_attribute.Size < example_value.length ∧
    example_memory.memory example_aliased_attribute.Value = 0 ∧
    (write_attribute example_memory 8 example_aliased_attribute example_value).memory
      example_aliased_attribute.Value = 8 ∧
    (write_attribute example_memory 8 example_aliased_attribute example_value).memory
      example_aliased_attribute.Value ≠
        example_memory.memory example_aliased_attribute.Value := by
  refine ⟨by decide, rfl, ?_, ?_⟩
  · set_option maxRecDepth 100000 in decide
  · set_option maxRecDepth 100000 in decide

theorem to_bytes_getElem (width n k : Nat) (hk : k < (to_bytes width n).length) :
    ((to_bytes width n)[k]).val = n / 256 ^ k % 256 := by
  unfold to_bytes
  rw [List.getElem_map, List.getElem_range]
  rfl

theorem to_bytes_length (width n : Nat) : (to_bytes width n).length = width := by
  unfold to_bytes
  rw [List.length_map, List.length_range]

/-- C13 as amended: `write_attribute` writes the size `S` of the value to the
guest location `ReturnLength` whenever `ReturnLength` is non-zero,
independently of `Size`, and then copies the value to the guest address
`Value` if and only if `Size >= S`.  When `Size < S` no copy is made and every
guest byte outside the return-length word is left untouched, so the memory at
`Value` is untouched unless `ReturnLength` is non-zero and its word overlaps
it.  In particular the value is not copied for `Size = S - 1` and is copied
for `Size = S` and `Size = S + 1`. -/
theorem write_attribute_two_phase (emu : emulator) (SIZE_T_bytes : Nat)
    (attr : PS_ATTRIBUTE) (value : List byte) :
    (write_attribute emu SIZE_T_bytes attr value).memory_writes =
      emu.memory_writes ++
        (if attr.ReturnLength ≠ 0 then
          [(attr.ReturnLength, to_bytes SIZE_T_bytes value.length)] else []) ++
        (if attr.Size ≥ value.length then [(attr.Value, value)] else []) ∧
    (attr.Size ≥ value.length → value.length ≤ UINT64_SIZE →
      ∀ k (hk : k < value.length),
        (write_attribute emu SIZE_T_bytes attr value).memory
          ((attr.Value + k) % UINT64_SIZE) = value[k]) ∧
    (attr.Size < value.length →
      ∀ a, (attr.ReturnLength = 0 ∨
          SIZE_T_bytes ≤ (a + UINT64_SIZE - attr.ReturnLength % UINT64_SIZE) % UINT64_SIZE) →
        (write_attribute emu SIZE_T_bytes attr value).memory a = emu.memory a) ∧
    (attr.ReturnLength ≠ 0 → attr.Size < value.length → SIZE_T_bytes ≤ UINT64_SIZE →
      ∀ k, k < SIZE_T_bytes →
        ((write_attribute emu SIZE_T_bytes attr value).memory
          ((attr.ReturnLength + k) % UINT64_SIZE)).val = value.length / 256 ^ k % 256) ∧
    (value ≠ [] →
      (write_attribute emu SIZE_T_bytes { attr with Size := value.length - 1 } value).memory_writes =
        emu.memory_writes ++
          (if attr.ReturnLength ≠ 0 then
            [(attr.ReturnLength, to_bytes SIZE_T_bytes value.length)] else [])) ∧
    (write_attribute emu SIZE_T_bytes { attr with Size := value.length } value).memory_writes =
      emu.memory_writes ++
        (if attr.ReturnLength ≠ 0 then
          [(attr.ReturnLength, to_bytes SIZE_T_bytes value.length)] else []) ++
        [(attr.Value, value)] ∧
    (write_attribute emu SIZE_T_bytes { attr with Size := value.length + 1 } value).memory_writes =
      emu.memory_writes ++
        (if attr.ReturnLength ≠ 0 then
          [(attr.ReturnLength, to_bytes SIZE_T_bytes value.length)] else []) ++
        [(attr.Value, value)] := by
  refine ⟨write_attribute_memory_writes emu SIZE_T_bytes attr value, ?_, ?_, ?_, ?_, ?_, ?_⟩
  · intro hsize hlen k hk
    unfold write_attribute emulator_object_write
    simp only []
    rw [if_pos hsize]
    exact emulator.write_memory_read _ attr.Value value hlen k hk
  · intro hsize a ha
    have hno : ¬ attr.Size ≥ value.length := by omega
    by_cases h1 : attr.ReturnLength ≠ 0
    · have e : write_attribute emu SIZE_T_bytes attr value =
          emu.write_memory attr.ReturnLength (to_bytes SIZE_T_bytes value.length) := by
        unfold write_attribute emulator_object_write
        simp only []
        rw [if_neg hno, if_pos h1]
      rw [e]
      rcases ha with h0 | hout
      · exact absurd h0 h1
      · exact emulator.write_memory_frame emu attr.ReturnLength _ a
          (by rw [to_bytes_length]; exact hout)
    · have e : write_attribute emu SIZE_T_bytes attr value = emu := by
        unfold write_attribute emulator_object_write
        simp only []
        rw [if_neg hno, if_neg h1]
      rw [e]
  · intro h1 hsize hw k hk
    have hno : ¬ attr.Size ≥ value.length := by omega
    have e : write_attribute emu SIZE_T_bytes attr value =
        emu.write_memory attr.ReturnLength (to_bytes SIZE_T_bytes value.length) := by
      unfold write_attribute emulator_object_write
      simp only []
      rw [if_neg hno, if_pos h1]
    rw [e]
    have hk2 : k < (to_bytes SIZE_T_bytes value.length).length := by
      rw [to_bytes_length]; exact hk
    rw [emulator.write_memory_read emu attr.ReturnLength _
      (by rw [to_bytes_length]; exact hw) k hk2]
    exact to_bytes_getElem _ _ k hk2
  · intro hne
    have hpos : 0 < value.length := List.length_pos.2 hne
    rw [write_attribute_memory_writes]
    have hno : ¬ value.length - 1 ≥ value.length := by omega
    simp only [hno, if_false, List.append_nil]
  · rw [write_attribute_memory_writes]
    simp
  · rw [write_attribute_memory_writes]
    simp

end Emulator
